import Mathlib

/-
Verification development for the weighted C-source generator of this
repository (file src/c_gen_adv.py).  The generator units, the shared
generation state, the weighted assembly loop and the CLI weight parser are
embedded shallowly below, translated function by function from the Python
source.

Modelling conventions, stated once here:

* The pseudo-random source (a seeded random.Random instance in the source)
  is modelled as an explicit stream of naturals `Rng` together with a read
  position.  Each primitive draw of the source consumes one stream value.
  A call random() returning a float in [0,1) is modelled by its numerator
  `k % 2^53` over the denominator 2^53, which is exactly the resolution of
  the CPython generator; the comparisons random() < 0.25 and random() < 0.5
  that the source performs are exact at this resolution, so they are
  modelled as `k % 2^53 < 2^51` and `k % 2^53 < 2^52`.  Properties proved
  for every stream cover every realisable draw sequence.

* Python sets (state fields typedefs, structs, funcs, headers) are modelled
  as insertion-ordered duplicate-free lists.  The source materialises some
  of these sets with list(...) before indexing into them with rng.choice;
  the iteration order of a set of strings in CPython depends on the
  per-process string-hash randomisation, so the order produced by list(...)
  is NOT a function of the configuration and seed.  This order is therefore
  an explicit environment parameter `SetOrd` below: any function that
  permutes the stored list.  Properties quantified over all such
  environments cover every realisable iteration order.

* The rendered fraction h/100 with 0 <= h <= 10000 stands for the string
  f-formatting of rng.uniform(0, 100) with two decimals; exact binary
  floating point rounding is outside the embedding, but the set of
  producible literal strings coincides.

* The weighted draw rng.choices(kinds, weights) is modelled with exact
  rational cumulative weights and the bisect-based index computation of
  CPython (index capped at len - 1); CPython raises ValueError when the
  total weight is not positive, modelled as the `none` outcome.  The
  rational model agrees exactly with the float computation whenever the
  weights are small integers, which is the case at every concrete
  evaluation below.
-/

set_option maxHeartbeats 4000000
set_option maxRecDepth 10000

/-! ## Newline counting -/

def countNL (s : String) : Nat := s.toList.count (Char.ofNat 10)

def NLfree (s : String) : Prop := countNL s = 0

instance (s : String) : Decidable (NLfree s) :=
  inferInstanceAs (Decidable (countNL s = 0))

/-! ## The random source -/

structure Rng where
  s : Nat → Nat
  i : Nat

def Rng.next (r : Rng) : Nat × Rng := (r.s r.i, ⟨r.s, r.i + 1⟩)

def D53 : Nat := 2 ^ 53

def QUARTER : Nat := 2 ^ 51

def HALF : Nat := 2 ^ 52

/-- Model of the internal uniform index draw `_randbelow(n)`. -/
def randBelow (n : Nat) (r : Rng) : Nat × Rng :=
  let p := r.next
  (p.1 % n, p.2)

/-- Model of `rng.randint(a, b)`: uniform on the inclusive range. -/
def randint (a b : Nat) (r : Rng) : Nat × Rng :=
  let p := randBelow (b + 1 - a) r
  (a + p.1, p.2)

/-- Model of `rng.random()`: the numerator of a dyadic rational over 2^53. -/
def randReal53 (r : Rng) : Nat × Rng :=
  let p := r.next
  (p.1 % D53, p.2)

/-- Model of `rng.choice(l)` for the non-empty lists the source passes. -/
def rngChoice {α : Type} [Inhabited α] (l : List α) (r : Rng) : α × Rng :=
  let p := randBelow l.length r
  (l.getD p.1 default, p.2)

/-- Model of `rng.sample(l, 2)`: the partial-shuffle pool algorithm CPython
uses for a population of this size (two uniform index draws). -/
def sample2 (l : List String) (r : Rng) : (String × String) × Rng :=
  let n := l.length
  let j1 := randBelow n r
  let x1 := l.getD j1.1 ""
  let pool := l.set j1.1 (l.getD (n - 1) "")
  let j2 := randBelow (n - 1) j1.2
  ((x1, pool.getD j2.1 ""), j2.2)

/-! ## Naming and typing helpers (source lines 74-107) -/

def LETTERS : List Char := "abcdefghijklmnopqrstuvwxyz".toList

/-- Model of Python str.endswith (kernel-reducible form). -/
def pyEndsWith (s t : String) : Bool :=
  s.toList.drop (s.toList.length - t.toList.length) == t.toList

def BASE_CTYPES : List String := ["int", "long", "float", "double", "char"]

def freshNameGo : Nat → Rng → List Char × Rng
  | 0, r => ([], r)
  | n + 1, r =>
    let c := rngChoice LETTERS r
    let rest := freshNameGo n c.2
    (c.1 :: rest.1, rest.2)

/-- Model of `fresh_name(rng, length)` (default length 6 at call sites). -/
def fresh_name (r : Rng) (len : Nat) : String × Rng :=
  let p := freshNameGo len r
  (String.mk p.1, p.2)

/-- Model of `choose_ctype(rng, extra)`: the pointer-chance draw is always
consumed, matching the evaluation order of the Python `and`. -/
def choose_ctype (extra : List String) (r : Rng) : String × Rng :=
  let b := rngChoice (BASE_CTYPES ++ extra) r
  let k := randReal53 b.2
  if k.1 < QUARTER && !(pyEndsWith b.1 "*") then (b.1 ++ "*", k.2) else (b.1, k.2)

def SQ : String := String.singleton (Char.ofNat 39)

/-- Two-digit rendering of the fractional part of the .2f format. -/
def pad2 (n : Nat) : String := if n < 10 then "0" ++ Nat.repr n else Nat.repr n

/-- Model of the f-string rendering of `rng.uniform(0, 100)` with format .2f:
a value with hundredths numerator h, 0 <= h <= 10000. -/
def uniform2f (r : Rng) : String × Rng :=
  let p := r.next
  let h := p.1 % 10001
  (Nat.repr (h / 100) ++ "." ++ pad2 (h % 100), p.2)

/-- Model of `random_value(rng, ctype)` (source lines 93-101). -/
def random_value (ctype : String) (r : Rng) : String × Rng :=
  if pyEndsWith ctype "*" then ("NULL", r)
  else if ctype = "char" then
    let c := rngChoice LETTERS r
    (SQ ++ String.singleton c.1 ++ SQ, c.2)
  else if ctype = "int" || ctype = "long" then
    let v := randint 0 100 r
    (Nat.repr v.1 ++ (if ctype = "long" then "L" else ""), v.2)
  else uniform2f r

structure StylePreset where
  indent : String
  brace_same : Bool
deriving DecidableEq

def STYLE_TABLE : List (String × StylePreset) :=
  [("kr", ⟨"    ", true⟩), ("allman", ⟨"    ", false⟩), ("gnu", ⟨"  ", true⟩)]

/-- Lookup in STYLE_TABLE.  The Python dict indexing raises KeyError on an
unknown style name; every claim below concerns the registered styles, and the
default branch is never exercised by them. -/
def styleGet (s : String) : StylePreset := (STYLE_TABLE.lookup s).getD ⟨"    ", true⟩

/-- Model of `brace_line(state, header)` (source lines 103-107). -/
def brace_line (style : String) (header : String) : String :=
  if (styleGet style).brace_same then header ++ " \x7b\n" else header ++ "\n\x7b\n"

/-- Model of Python str.capitalize on the lowercase names it is applied to. -/
def pyCapitalize (s : String) : String :=
  match s.toList with
  | [] => ""
  | c :: cs => String.mk (c.toUpper :: cs.map Char.toLower)

/-- Model of Python str.upper. -/
def pyUpper (s : String) : String := String.mk (s.toList.map Char.toUpper)

/-- Python "sep".join for a possibly empty list. -/
def pyJoin (sep : String) : List String → String
  | [] => ""
  | [x] => x
  | x :: y :: ys => x ++ sep ++ pyJoin sep (y :: ys)

/-- Python "".join. -/
def pyConcat : List String → String
  | [] => ""
  | x :: xs => x ++ pyConcat xs

/-- Python set.add on the insertion-ordered list model. -/
def setAdd {α : Type} [DecidableEq α] (l : List α) (a : α) : List α :=
  if a ∈ l then l else l ++ [a]

/-! ## Generation state -/

/-- The shared mutable state dict of build_c, minus the rng (threaded
separately) and the style (immutable after selection, stored here). -/
structure GenState where
  style : String
  typedefs : List String
  structs : List String
  funcs : List (String × String × String)
  headers : List String
  main_written : Bool
deriving DecidableEq

def initState (style : String) : GenState := ⟨style, [], [], [], [], false⟩

/-- The set-iteration-order environment: how CPython happens to order a set
of strings (resp. of signature tuples) when the source calls list(...) on it.
It is a per-process accident, not a function of configuration and seed. -/
structure SetOrd where
  ordS : List String → List String
  ordF : List (String × String × String) → List (String × String × String)

/-- A sane order environment: list(...) returns the stored elements in some
order, i.e. a permutation of them. -/
def SetOrd.ok (o : SetOrd) : Prop :=
  (∀ l, (o.ordS l).Perm l) ∧ (∀ l, (o.ordF l).Perm l)

def ordId : SetOrd := ⟨fun l => l, fun l => l⟩

def ordRev : SetOrd := ⟨fun l => l.reverse, fun l => l.reverse⟩

/-! ## Generator units (source lines 113-257) -/

abbrev Gen := SetOrd → GenState → Rng → String × GenState × Rng

def gen_comment : Gen := fun _o st r =>
  let tags : List String := ["// TODO", "// FIXME", "// NOTE", "// HACK"]
  let t := rngChoice tags r
  let n := randint 3 8 t.2
  let nm := fresh_name n.2 n.1
  (t.1 ++ ": " ++ nm.1 ++ "\n", st, nm.2)

def HDRS : List String :=
  ["<stdio.h>", "<stdlib.h>", "<string.h>", "<math.h>", "<stddef.h>"]

def gen_include : Gen := fun _o st r =>
  let available := HDRS.filter (fun h => ¬ st.headers.contains h)
  let base : List String × List String :=
    if available.isEmpty then ([], HDRS) else (st.headers, available)
  let c := rngChoice base.2 r
  ("#include " ++ c.1 ++ "\n", { st with headers := setAdd base.1 c.1 }, c.2)

def gen_define_macro_obj : Gen := fun _o st r =>
  let nm := fresh_name r 6
  let v := randint 1 100 nm.2
  ("#define " ++ pyUpper nm.1 ++ " " ++ Nat.repr v.1 ++ "\n", st, v.2)

def gen_define_macro_fn : Gen := fun _o st r =>
  let nm := fresh_name r 6
  let p := fresh_name nm.2 1
  ("#define " ++ pyUpper nm.1 ++ "(" ++ p.1 ++ ") ((" ++ p.1 ++ ") * (" ++ p.1 ++ "))\n",
   st, p.2)

def gen_typedef : Gen := fun _o st r =>
  let ln := randint 3 6 r
  let al := fresh_name ln.2 ln.1
  let bt := rngChoice BASE_CTYPES al.2
  ("typedef " ++ bt.1 ++ " " ++ al.1 ++ ";\n",
   { st with typedefs := setAdd st.typedefs al.1 }, bt.2)

def gen_enum : Gen := fun _o st r =>
  let ln := randint 3 6 r
  let nm := fresh_name ln.2 ln.1
  let name := pyCapitalize nm.1
  let cnt := randint 2 4 nm.2
  let items := pyJoin ", "
    ((List.range cnt.1).map (fun i => pyUpper name ++ "_" ++ Nat.repr i))
  ("typedef enum \x7b " ++ items ++ " \x7d " ++ name ++ ";\n",
   { st with typedefs := setAdd st.typedefs name }, cnt.2)

def gen_union : Gen := fun _o st r =>
  let ln := randint 3 6 r
  let nm := fresh_name ln.2 ln.1
  let name := pyCapitalize nm.1
  let ts := sample2 BASE_CTYPES nm.2
  let f1 := fresh_name ts.2 6
  let f2 := fresh_name f1.2 6
  ("typedef union " ++ name ++ " \x7b\n" ++
     ("    " ++ ts.1.1 ++ " " ++ f1.1 ++ ";") ++ "\n" ++
     ("    " ++ ts.1.2 ++ " " ++ f2.1 ++ ";") ++
     "\n\x7d " ++ name ++ ";\n",
   { st with structs := setAdd st.structs name }, f2.2)

def structLines : Nat → Rng → List String × Rng
  | 0, r => ([], r)
  | n + 1, r =>
    let bt := rngChoice BASE_CTYPES r
    let ln := randint 3 6 bt.2
    let nm := fresh_name ln.2 ln.1
    let rest := structLines n nm.2
    (("    " ++ bt.1 ++ " " ++ nm.1 ++ ";") :: rest.1, rest.2)

def gen_struct : Gen := fun _o st r =>
  let ln := randint 3 6 r
  let nm := fresh_name ln.2 ln.1
  let name := pyCapitalize nm.1
  let cnt := randint 1 3 nm.2
  let ls := structLines cnt.1 cnt.2
  ("typedef struct " ++ name ++ " \x7b\n" ++ pyJoin "\n" ls.1 ++ "\n\x7d " ++ name ++ ";\n",
   { st with structs := setAdd st.structs name }, ls.2)

def gen_var_decl : Gen := fun o st r =>
  let ct := choose_ctype (o.ordS st.typedefs) r
  let nm := fresh_name ct.2 6
  let ir : String × Rng :=
    if ¬ pyEndsWith ct.1 "*" then
      let k := randReal53 nm.2
      if k.1 < HALF then
        let bt := rngChoice BASE_CTYPES k.2
        let v := random_value bt.1 bt.2
        (" = " ++ v.1, v.2)
      else ("", k.2)
    else ("", nm.2)
  (ct.1 ++ " " ++ nm.1 ++ ir.1 ++ ";\n", st, ir.2)

def genParams : Nat → List String → Rng → List String × Rng
  | 0, _, r => ([], r)
  | n + 1, tds, r =>
    let ct := choose_ctype tds r
    let nm := fresh_name ct.2 6
    let rest := genParams n tds nm.2
    ((ct.1 ++ " " ++ nm.1) :: rest.1, rest.2)

def gen_func_decl : Gen := fun o st r =>
  let tds := o.ordS st.typedefs
  let ret := choose_ctype tds r
  let nm := fresh_name ret.2 6
  let np := randint 0 2 nm.2
  let ps := genParams np.1 tds np.2
  let params_str := if ps.1.isEmpty then "void" else pyJoin ", " ps.1
  (ret.1 ++ " " ++ nm.1 ++ "(" ++ params_str ++ ");\n",
   { st with funcs := setAdd st.funcs (ret.1, nm.1, params_str) }, ps.2)

def gen_func_def : Gen := fun o st r =>
  if st.funcs.isEmpty then ("", st, r)
  else
    let sig := rngChoice (o.ordF st.funcs) r
    let indent := (styleGet st.style).indent
    let body : String × Rng :=
      if sig.1.1 = "void" then (indent ++ "// function body\n", sig.2)
      else
        let bt := rngChoice BASE_CTYPES sig.2
        let v := random_value bt.1 bt.2
        (indent ++ "return " ++ v.1 ++ ";\n", v.2)
    (brace_line st.style (sig.1.1 ++ " " ++ sig.1.2.1 ++ "(" ++ sig.1.2.2 ++ ")") ++
       body.1 ++ "\x7d\n\n", st, body.2)

def gen_switch : Gen := fun _o st r =>
  let v := fresh_name r 6
  let indent := (styleGet st.style).indent
  let nc := randint 2 4 v.2
  let cases := (List.range nc.1).map (fun i =>
    indent ++ "case " ++ Nat.repr i ++ ":\n" ++ indent ++ indent ++ v.1 ++ " += " ++
      Nat.repr i ++ ";\n" ++ indent ++ indent ++ "break;\n")
  let dflt := indent ++ "default:\n" ++ indent ++ indent ++ "break;\n\x7d\n"
  (brace_line st.style ("switch (" ++ v.1 ++ ")") ++ pyConcat cases ++ dflt, st, nc.2)

def gen_conditional : Gen := fun _o st r =>
  let v := fresh_name r 6
  let cmp := randint 0 10 v.2
  let indent := (styleGet st.style).indent
  let part1 := brace_line st.style ("if (" ++ v.1 ++ " > " ++ Nat.repr cmp.1 ++ ")") ++
    indent ++ v.1 ++ " = " ++ Nat.repr cmp.1 ++ ";\n\x7d\n"
  let part2 := brace_line st.style "else" ++
    indent ++ v.1 ++ " += " ++ Nat.repr cmp.1 ++ ";\n\x7d\n"
  (part1 ++ part2, st, cmp.2)

def gen_loop : Gen := fun _o st r =>
  let v := fresh_name r 6
  let indent := (styleGet st.style).indent
  let b := randint 1 5 v.2
  (brace_line st.style
      ("for (int " ++ v.1 ++ " = 0; " ++ v.1 ++ " < " ++ Nat.repr b.1 ++ "; ++" ++ v.1 ++ ")") ++
    indent ++ "// loop body\n\x7d\n", st, b.2)

def PRINTF_LINE : String := "printf(\"Hello, world!\\n\");\n"

def mainBodyLines : Nat → SetOrd → GenState → String → Rng → List String × Rng
  | 0, _, _, _, r => ([], r)
  | n + 1, o, st, indent, r =>
    if st.funcs.isEmpty then
      let rest := mainBodyLines n o st indent r
      ((indent ++ PRINTF_LINE) :: rest.1, rest.2)
    else
      let k := randReal53 r
      if k.1 < HALF then
        let sig := rngChoice (o.ordF st.funcs) k.2
        let pstr := sig.1.2.2
        let args := if pstr ≠ "void" then
            pyJoin ", " (List.replicate (pstr.toList.count (Char.ofNat 44) + 1) "0")
          else ""
        let rest := mainBodyLines n o st indent sig.2
        ((indent ++ sig.1.2.1 ++ "(" ++ args ++ ");\n") :: rest.1, rest.2)
      else
        let rest := mainBodyLines n o st indent k.2
        ((indent ++ PRINTF_LINE) :: rest.1, rest.2)

def gen_main : Gen := fun o st r =>
  if st.main_written then ("", st, r)
  else
    let st1 := { st with main_written := true }
    let indent := (styleGet st1.style).indent
    let cnt := randint 1 3 r
    let body := mainBodyLines cnt.1 o st1 indent cnt.2
    (brace_line st1.style "int main(void)" ++ pyConcat body.1 ++
       indent ++ "return 0;\n" ++ "\x7d\n", st1, body.2)

/-! ## Registry and builder (source lines 59-68 and 263-289) -/

/-- The registered unit names, in registration order. -/
def registryKinds : List String :=
  ["comment", "include", "define_macro", "define_macro_f", "typedef", "enum",
   "union", "struct", "var_decl", "func_decl", "func_def", "switch",
   "conditional", "loop", "main"]

/-- Dispatch on the drawn unit name; an unknown name is the KeyError of the
Python dict lookup. -/
def runUnit (kind : String) (o : SetOrd) (st : GenState) (r : Rng) :
    Option (String × GenState × Rng) :=
  match kind with
  | "comment" => some (gen_comment o st r)
  | "include" => some (gen_include o st r)
  | "define_macro" => some (gen_define_macro_obj o st r)
  | "define_macro_f" => some (gen_define_macro_fn o st r)
  | "typedef" => some (gen_typedef o st r)
  | "enum" => some (gen_enum o st r)
  | "union" => some (gen_union o st r)
  | "struct" => some (gen_struct o st r)
  | "var_decl" => some (gen_var_decl o st r)
  | "func_decl" => some (gen_func_decl o st r)
  | "func_def" => some (gen_func_def o st r)
  | "switch" => some (gen_switch o st r)
  | "conditional" => some (gen_conditional o st r)
  | "loop" => some (gen_loop o st r)
  | "main" => some (gen_main o st r)
  | _ => none

/-- The default weights dict of CConfig, insertion order preserved (the float
literals 0.07 etc. as exact rationals). -/
def defaultWeights : List (String × ℚ) :=
  [("comment", mkRat 7 100), ("include", mkRat 7 100), ("define_macro", mkRat 4 100),
   ("define_macro_f", mkRat 4 100), ("typedef", mkRat 8 100), ("enum", mkRat 6 100),
   ("union", mkRat 5 100), ("struct", mkRat 7 100), ("var_decl", mkRat 12 100),
   ("func_decl", mkRat 8 100), ("func_def", mkRat 8 100), ("switch", mkRat 5 100),
   ("main", mkRat 7 100), ("conditional", mkRat 6 100), ("loop", mkRat 6 100)]

/-- The CConfig dataclass.  The seed field selects which stream the rng is
initialised with; the rng stream itself is passed to the builder explicitly,
standing for random.Random(seed). -/
structure CConfig where
  loc : Int := 200
  seed : Option Int := none
  style : String := "auto"
  check : Bool := false
  weights : List (String × ℚ) := defaultWeights

/-- Exact fraction pairs (numerator, positive denominator) used to run the
cumulative-weight arithmetic of rng.choices with kernel-reducible integer
operations; a rational q is read off as (q.num, q.den). -/
def fracOf (q : ℚ) : Int × Nat := (q.num, q.den)

def fracAdd (a b : Int × Nat) : Int × Nat :=
  (a.1 * (b.2 : Int) + b.1 * (a.2 : Int), a.2 * b.2)

/-- Comparison a <= b of fraction pairs with positive denominators. -/
def fracLe (a b : Int × Nat) : Bool := a.1 * (b.2 : Int) ≤ b.1 * (a.2 : Int)

def cumFracs (acc : Int × Nat) : List ℚ → List (Int × Nat)
  | [] => []
  | w :: ws =>
    let c := fracAdd acc (fracOf w)
    c :: cumFracs c ws

/-- Model of `rng.choices(kinds, weights=weights)[0]`: one random() draw,
bisected into the cumulative weights with the upper index capped at
len - 1; `none` is the ValueError CPython raises when the total weight is
not positive (or when unpacking an empty weights dict fails).  The value
random() * total is the fraction (k * total.num) / (2^53 * total.den). -/
def rng_choices (kinds : List String) (ws : List ℚ) (r : Rng) : Option (String × Rng) :=
  if kinds.isEmpty then none
  else
    let cum := cumFracs (0, 1) ws
    let total := cum.getLastD (0, 1)
    if total.1 ≤ 0 then none
    else
      let k := randReal53 r
      let x : Int × Nat := ((k.1 : Int) * total.1, D53 * total.2)
      let idx := ((cum.take (kinds.length - 1)).filter (fun c => fracLe c x)).length
      some (kinds.getD idx "", k.2)

def PREAMBLE : String := "/* Auto-generated C code */\n\n"

structure LoopSt where
  st : GenState
  rng : Rng
  parts : List (String × String)
  lines : Nat

/-- One iteration of the while loop of build_c: draw a kind, run the unit,
append the snippet if non-empty and add its newline count. -/
def loopStep (cfg : CConfig) (o : SetOrd) (ls : LoopSt) : Option LoopSt :=
  match rng_choices (cfg.weights.map Prod.fst) (cfg.weights.map Prod.snd) ls.rng with
  | none => none
  | some kr =>
    match runUnit kr.1 o ls.st kr.2 with
    | none => none
    | some out =>
      if out.1 = "" then some { ls with st := out.2.1, rng := out.2.2 }
      else some { st := out.2.1, rng := out.2.2,
                  parts := ls.parts ++ [(kr.1, out.1)],
                  lines := ls.lines + countNL out.1 }

/-- The while loop, with explicit fuel: `none` means the fuel ran out while
the guard still held (or a runtime error occurred in an iteration), `some`
means the loop exited with the guard false. -/
def loopGo (cfg : CConfig) (o : SetOrd) : Nat → LoopSt → Option LoopSt
  | 0, ls => if (ls.lines : Int) < cfg.loc then none else some ls
  | fuel + 1, ls =>
    if (ls.lines : Int) < cfg.loc then (loopStep cfg o ls).bind (loopGo cfg o fuel)
    else some ls

/-- The loop state build_c starts from: the freshly seeded rng, the chosen
style (one extra draw when the configured style is "auto"), the preamble
part, and the line counter initialised to the preamble newline count. -/
def buildInit (cfg : CConfig) (stream : Nat → Nat) : LoopSt :=
  let r0 : Rng := ⟨stream, 0⟩
  let sty := if cfg.style = "auto" then rngChoice ["kr", "allman", "gnu"] r0
             else (cfg.style, r0)
  ⟨initState sty.1, sty.2, [("pre", PREAMBLE)], countNL PREAMBLE⟩

/-- The finalisation of build_c: when no entry point was emitted during the
loop, one forced gen_main invocation is appended unconditionally (the
source no longer adds its line count to the dead counter, and neither does
the model). -/
def buildFin (o : SetOrd) (ls : LoopSt) : LoopSt :=
  if ls.st.main_written then ls
  else
    let m := gen_main o ls.st ls.rng
    { st := m.2.1, rng := m.2.2, parts := ls.parts ++ [("main", m.1)], lines := ls.lines }

/-- Model of build_c up to the final join: style selection, initial state,
the weighted loop, and the forced entry point when none was emitted. -/
def buildCRun (cfg : CConfig) (o : SetOrd) (stream : Nat → Nat) (fuel : Nat) :
    Option LoopSt :=
  (loopGo cfg o fuel (buildInit cfg stream)).map (buildFin o)

/-- The labelled fragments build_c accumulates (the preamble first, then one
entry per appended snippet, tagged with the unit name that produced it). -/
def buildCParts (cfg : CConfig) (o : SetOrd) (stream : Nat → Nat) (fuel : Nat) :
    Option (List (String × String)) :=
  (buildCRun cfg o stream fuel).map (fun ls => ls.parts)

/-- Model of build_c(cfg): the assembled text. -/
def build_c (cfg : CConfig) (o : SetOrd) (stream : Nat → Nat) (fuel : Nat) :
    Option String :=
  (buildCRun cfg o stream fuel).map (fun ls => pyConcat (ls.parts.map Prod.snd))

/-! ## The CLI weight parser (source lines 305-315) -/

def digitVal (c : Char) : Option Nat :=
  if 48 ≤ c.toNat && c.toNat ≤ 57 then some (c.toNat - 48) else none

def digitsToNat (cs : List Char) : Option Nat :=
  if cs.isEmpty then none
  else cs.foldlM (fun a c => (digitVal c).map (fun d => a * 10 + d)) 0

/-- Splitting a character list at every occurrence of a separator, the
semantics of Python str.split with a one-character separator. -/
def splitCharGo (sep : Char) : List Char → List Char → List (List Char)
  | [], acc => [acc.reverse]
  | c :: cs, acc =>
    if c == sep then acc.reverse :: splitCharGo sep cs []
    else splitCharGo sep cs (c :: acc)

/-- Model of Python str.split(sep) for a one-character separator. -/
def pySplitChar (sep : Char) (s : String) : List String :=
  (splitCharGo sep s.toList []).map String.mk

def isPySpace (c : Char) : Bool :=
  c == Char.ofNat 32 || c == Char.ofNat 9 || c == Char.ofNat 10 ||
    c == Char.ofNat 13 || c == Char.ofNat 11 || c == Char.ofNat 12

/-- Model of Python str.strip() on ASCII whitespace. -/
def pyStrip (s : String) : String :=
  String.mk (((s.toList.dropWhile isPySpace).reverse.dropWhile isPySpace).reverse)

/-- Model of Python float() on the literal forms exercised below: an optional
sign, digits, and an optional decimal point.  (Exponents, inf and nan are
accepted by float() as well but are irrelevant to every claim.) -/
def parseFloatQ (s : String) : Option ℚ :=
  let t := (pyStrip s).toList
  let su : Bool × List Char :=
    match t with
    | c :: cs =>
      if c == Char.ofNat 45 then (true, cs)
      else if c == Char.ofNat 43 then (false, cs)
      else (false, t)
    | [] => (false, t)
  let v : Option ℚ :=
    match splitCharGo (Char.ofNat 46) su.2 [] with
    | [a] => (digitsToNat a).map (fun n => mkRat n 1)
    | [a, b] =>
      if a.isEmpty && b.isEmpty then none
      else
        let ia : Option Nat := if a.isEmpty then some 0 else digitsToNat a
        let fb : Option (Nat × Nat) :=
          if b.isEmpty then some (0, 0)
          else (digitsToNat b).map (fun m => (m, b.length))
        ia.bind (fun x => fb.map (fun mf => mkRat (x * 10 ^ mf.2 + mf.1) (10 ^ mf.2)))
    | _ => none
  v.map (fun q => if su.1 then mkRat (-q.num) q.den else q)

/-- Python dict assignment base[key] = val: update in place or append. -/
def upsert (m : List (String × ℚ)) (k : String) (v : ℚ) : List (String × ℚ) :=
  if m.any (fun p => p.1 = k) then m.map (fun p => if p.1 = k then (k, v) else p)
  else m ++ [(k, v)]

def parsePairs : List String → List (String × ℚ) → Option (List (String × ℚ))
  | [], acc => some acc
  | p :: ps, acc =>
    match pySplitChar (Char.ofNat 61) p with
    | [k, v] => (parseFloatQ v).bind (fun q => parsePairs ps (upsert acc (pyStrip k) q))
    | _ => none

/-- Model of _parse_weights(arg): `none` is the sys.exit on malformed syntax;
note that it validates syntax only, never key names or value signs. -/
def parse_weights (arg : Option String) : Option (List (String × ℚ)) :=
  match arg with
  | none => some defaultWeights
  | some a =>
    if a = "" then some defaultWeights
    else parsePairs (pySplitChar (Char.ofNat 44) a) defaultWeights

/-! ## Spec-side literal predicate

Modelled from the spec: the literalFor(type) contract of section 4.2
(pointer to null literal; character to quoted single character; integral to
bounded random integer with optional width suffix; floating to bounded
random decimal with fixed precision), stated as a predicate on the type
string and the literal string, for comparison against what the code emits. -/
def specLiteralFor (ctype lit : String) : Prop :=
  if pyEndsWith ctype "*" then lit = "NULL"
  else if ctype = "char" then ∃ c ∈ LETTERS, lit = SQ ++ String.singleton c ++ SQ
  else if ctype = "int" then ∃ n ∈ List.range 101, lit = Nat.repr n
  else if ctype = "long" then ∃ n ∈ List.range 101, lit = Nat.repr n ++ "L"
  else ∃ h ∈ List.range 10001, lit = Nat.repr (h / 100) ++ "." ++ pad2 (h % 100)

instance (ctype lit : String) : Decidable (specLiteralFor ctype lit) := by
  unfold specLiteralFor
  split
  · exact inferInstance
  · split
    · exact inferInstance
    · split
      · exact inferInstance
      · split
        · exact inferInstance
        · exact inferInstance

/-! ## Counting and character lemmas -/

theorem countNL_append (a b : String) : countNL (a ++ b) = countNL a + countNL b := by
  unfold countNL
  show (a ++ b).data.count _ = a.data.count _ + b.data.count _
  rw [String.data_append, List.count_append]

theorem NLfree_iff (s : String) : NLfree s ↔ Char.ofNat 10 ∉ s.toList := by
  unfold NLfree countNL
  exact List.count_eq_zero

theorem NLfree_append {a b : String} (ha : NLfree a) (hb : NLfree b) : NLfree (a ++ b) := by
  unfold NLfree at *
  rw [countNL_append, ha, hb]

theorem countNL_of_NLfree {a : String} (ha : NLfree a) : countNL a = 0 := ha

theorem countNL_pyConcat (l : List String) : countNL (pyConcat l) = (l.map countNL).sum := by
  induction l with
  | nil => rfl
  | cons x xs ih => simp [pyConcat, countNL_append, ih]

def UPPERS : List Char := "ABCDEFGHIJKLMNOPQRSTUVWXYZ".toList

def Lettered (s : String) : Prop := ∀ c ∈ s.toList, c ∈ LETTERS ∨ c ∈ UPPERS

theorem letters_toUpper : ∀ c ∈ LETTERS, c.toUpper ∈ UPPERS := by decide

theorem uppers_toUpper : ∀ c ∈ UPPERS, c.toUpper ∈ UPPERS := by decide

theorem letters_toLower : ∀ c ∈ LETTERS, c.toLower ∈ LETTERS := by decide

theorem uppers_toLower : ∀ c ∈ UPPERS, c.toLower ∈ LETTERS := by decide

theorem nl_not_in_letters : Char.ofNat 10 ∉ LETTERS := by decide

theorem nl_not_in_uppers : Char.ofNat 10 ∉ UPPERS := by decide

theorem Lettered.nlfree {s : String} (h : Lettered s) : NLfree s := by
  rw [NLfree_iff]
  intro hm
  rcases h _ hm with hc | hc
  · exact nl_not_in_letters hc
  · exact nl_not_in_uppers hc

theorem letter_toUpper {c : Char} (h : c ∈ LETTERS ∨ c ∈ UPPERS) :
    c.toUpper ∈ LETTERS ∨ c.toUpper ∈ UPPERS := by
  rcases h with h | h
  · exact Or.inr (letters_toUpper c h)
  · exact Or.inr (uppers_toUpper c h)

theorem letter_toLower {c : Char} (h : c ∈ LETTERS ∨ c ∈ UPPERS) :
    c.toLower ∈ LETTERS ∨ c.toLower ∈ UPPERS := by
  rcases h with h | h
  · exact Or.inl (letters_toLower c h)
  · exact Or.inl (uppers_toLower c h)

theorem lettered_pyUpper {s : String} (h : Lettered s) : Lettered (pyUpper s) := by
  intro c hc
  have hc2 : c ∈ s.toList.map Char.toUpper := hc
  rcases List.mem_map.mp hc2 with ⟨d, hd, rfl⟩
  exact letter_toUpper (h d hd)

theorem lettered_pyCapitalize {s : String} (h : Lettered s) : Lettered (pyCapitalize s) := by
  unfold pyCapitalize
  cases he : s.toList with
  | nil => intro c hc; simp at hc
  | cons d ds =>
    intro c hc
    have hc2 : c ∈ d.toUpper :: ds.map Char.toLower := hc
    have hmem : ∀ x ∈ s.toList, x ∈ LETTERS ∨ x ∈ UPPERS := h
    rw [he] at hmem
    rcases List.mem_cons.mp hc2 with rfl | hc3
    · exact letter_toUpper (hmem d (List.mem_cons_self d ds))
    · rcases List.mem_map.mp hc3 with ⟨x, hx, rfl⟩
      exact letter_toLower (hmem x (List.mem_cons_of_mem d hx))

/-! ## Random-draw lemmas -/

theorem rngChoice_mem {α : Type} [Inhabited α] (l : List α) (r : Rng) (h : l ≠ []) :
    (rngChoice l r).1 ∈ l := by
  unfold rngChoice randBelow Rng.next
  have hl : 0 < l.length := List.length_pos.mpr h
  have hlt : r.s r.i % l.length < l.length := Nat.mod_lt _ hl
  simp only
  rw [List.getD_eq_getElem l default hlt]
  exact List.getElem_mem hlt

theorem randint_le (a b : Nat) (r : Rng) (h : a ≤ b) : (randint a b r).1 ≤ b := by
  unfold randint randBelow Rng.next
  simp only
  have h1 : r.s r.i % (b + 1 - a) < b + 1 - a := Nat.mod_lt _ (by omega)
  omega

theorem randint_ge (a b : Nat) (r : Rng) : a ≤ (randint a b r).1 := by
  unfold randint randBelow Rng.next
  simp only
  omega

theorem freshNameGo_letters : ∀ (n : Nat) (r : Rng), ∀ c ∈ (freshNameGo n r).1, c ∈ LETTERS := by
  intro n
  induction n with
  | zero => intro r c hc; simp [freshNameGo] at hc
  | succ m ih =>
    intro r c hc
    simp only [freshNameGo] at hc
    rcases List.mem_cons.mp hc with rfl | hc2
    · exact rngChoice_mem LETTERS r (by decide)
    · exact ih _ c hc2

theorem lettered_fresh_name (r : Rng) (n : Nat) : Lettered (fresh_name r n).1 := by
  intro c hc
  exact Or.inl (freshNameGo_letters n r c hc)

theorem NLfree_fresh_name (r : Rng) (n : Nat) : NLfree (fresh_name r n).1 :=
  (lettered_fresh_name r n).nlfree

/-! ## Digit-rendering lemmas -/

theorem digitChar_of_ge (n : Nat) (h : 16 ≤ n) : Nat.digitChar n = Char.ofNat 42 := by
  have h0 : n ≠ 0 := by omega
  have h1 : n ≠ 1 := by omega
  have h2 : n ≠ 2 := by omega
  have h3 : n ≠ 3 := by omega
  have h4 : n ≠ 4 := by omega
  have h5 : n ≠ 5 := by omega
  have h6 : n ≠ 6 := by omega
  have h7 : n ≠ 7 := by omega
  have h8 : n ≠ 8 := by omega
  have h9 : n ≠ 9 := by omega
  have ha : n ≠ 10 := by omega
  have hb : n ≠ 11 := by omega
  have hcc : n ≠ 12 := by omega
  have hd : n ≠ 13 := by omega
  have he : n ≠ 14 := by omega
  have hf : n ≠ 15 := by omega
  unfold Nat.digitChar
  rw [if_neg h0, if_neg h1, if_neg h2, if_neg h3, if_neg h4, if_neg h5, if_neg h6,
    if_neg h7, if_neg h8, if_neg h9, if_neg ha, if_neg hb, if_neg hcc, if_neg hd,
    if_neg he, if_neg hf]

theorem digitChar_ne_nl (n : Nat) : Nat.digitChar n ≠ Char.ofNat 10 := by
  by_cases h : n < 16
  · interval_cases n <;> decide
  · rw [digitChar_of_ge n (by omega)]
    decide

theorem toDigitsCore_ne_nl (b : Nat) :
    ∀ (f n : Nat) (ds : List Char), (∀ c ∈ ds, c ≠ Char.ofNat 10) →
      ∀ c ∈ Nat.toDigitsCore b f n ds, c ≠ Char.ofNat 10 := by
  intro f
  induction f with
  | zero =>
    intro n ds hds c hc
    rw [Nat.toDigitsCore] at hc
    exact hds c hc
  | succ m ih =>
    intro n ds hds c hc
    rw [Nat.toDigitsCore] at hc
    by_cases hz : n / b = 0
    · rw [if_pos hz] at hc
      rcases List.mem_cons.mp hc with rfl | hc2
      · exact digitChar_ne_nl _
      · exact hds c hc2
    · rw [if_neg hz] at hc
      refine ih (n / b) (Nat.digitChar (n % b) :: ds) ?_ c hc
      intro x hx
      rcases List.mem_cons.mp hx with rfl | hx2
      · exact digitChar_ne_nl _
      · exact hds x hx2

theorem NLfree_repr (n : Nat) : NLfree (Nat.repr n) := by
  rw [NLfree_iff]
  intro h
  have h2 : Char.ofNat 10 ∈ Nat.toDigitsCore 10 (n + 1) n [] := h
  exact toDigitsCore_ne_nl 10 (n + 1) n [] (by simp) _ h2 rfl

theorem NLfree_pad2 (n : Nat) : NLfree (pad2 n) := by
  unfold pad2
  split
  · exact NLfree_append (by decide) (NLfree_repr n)
  · exact NLfree_repr n

theorem NLfree_uniform2f (r : Rng) : NLfree (uniform2f r).1 := by
  unfold uniform2f
  exact NLfree_append (NLfree_append (NLfree_repr _) (by decide)) (NLfree_pad2 _)

theorem NLfree_singleton {c : Char} (h : c ≠ Char.ofNat 10) : NLfree (String.singleton c) := by
  rw [NLfree_iff]
  intro hm
  rcases List.mem_singleton.mp hm with rfl
  exact h rfl

theorem NLfree_random_value (ct : String) (r : Rng) : NLfree (random_value ct r).1 := by
  unfold random_value
  split_ifs with h1 h2 h3 h4
  · show NLfree "NULL"
    decide
  · show NLfree (SQ ++ String.singleton (rngChoice LETTERS r).1 ++ SQ)
    refine NLfree_append (NLfree_append (by decide) (NLfree_singleton ?_)) (by decide)
    intro hc
    exact nl_not_in_letters (hc ▸ rngChoice_mem LETTERS r (by decide))
  · show NLfree ((randint 0 100 r).1.repr ++ "L")
    exact NLfree_append (NLfree_repr _) (by decide)
  · show NLfree ((randint 0 100 r).1.repr ++ "")
    exact NLfree_append (NLfree_repr _) (by decide)
  · exact NLfree_uniform2f r

theorem uniform2f_lt (r : Rng) : (uniform2f r).1 =
    Nat.repr ((r.s r.i % 10001) / 100) ++ "." ++ pad2 ((r.s r.i % 10001) % 100) := rfl

/-! ## Style lemmas -/

theorem styleGet_cases (s : String) :
    styleGet s = ⟨"    ", true⟩ ∨ styleGet s = ⟨"    ", false⟩ ∨ styleGet s = ⟨"  ", true⟩ := by
  unfold styleGet STYLE_TABLE
  rcases h1 : (s == "kr") <;> rcases h2 : (s == "allman") <;> rcases h3 : (s == "gnu") <;>
    simp [List.lookup, h1, h2, h3]

theorem NLfree_indent (s : String) : NLfree (styleGet s).indent := by
  rcases styleGet_cases s with h | h | h <;> rw [h] <;> decide

theorem countNL_brace_le (sty h : String) : countNL (brace_line sty h) ≤ countNL h + 2 := by
  unfold brace_line
  have e1 : countNL " \x7b\n" = 1 := by decide
  have e2 : countNL "\n\x7b\n" = 2 := by decide
  split <;> rw [countNL_append] <;> omega

theorem countNL_brace_ge (sty h : String) : 1 ≤ countNL (brace_line sty h) := by
  unfold brace_line
  have e1 : countNL " \x7b\n" = 1 := by decide
  have e2 : countNL "\n\x7b\n" = 2 := by decide
  split <;> rw [countNL_append] <;> omega

/-! ## Join and set lemmas -/

theorem NLfree_pyJoin {sep : String} (hsep : NLfree sep) :
    ∀ {l : List String}, (∀ x ∈ l, NLfree x) → NLfree (pyJoin sep l) := by
  intro l
  induction l with
  | nil =>
    intro _
    show NLfree ""
    decide
  | cons x xs ih =>
    intro h
    cases xs with
    | nil => exact h x (List.mem_singleton.mpr rfl)
    | cons y ys =>
      refine NLfree_append (NLfree_append (h x (by simp)) hsep) (ih ?_)
      intro z hz
      exact h z (List.mem_cons_of_mem x hz)

theorem countNL_pyJoin_nl : ∀ (l : List String), (∀ x ∈ l, NLfree x) →
    countNL (pyJoin "\n" l) ≤ l.length - 1 := by
  intro l
  induction l with
  | nil =>
    intro _
    show countNL "" ≤ 0
    decide
  | cons x xs ih =>
    intro h
    cases xs with
    | nil =>
      have hx : countNL x = 0 := h x (by simp)
      show countNL x ≤ 1 - 1
      omega
    | cons y ys =>
      have hx : countNL x = 0 := h x (by simp)
      have hr := ih (fun z hz => h z (List.mem_cons_of_mem x hz))
      show countNL (x ++ "\n" ++ pyJoin "\n" (y :: ys)) ≤ (y :: ys).length
      rw [countNL_append, countNL_append, hx]
      have e1 : countNL "\n" = 1 := by decide
      simp only [List.length_cons] at hr ⊢
      omega

theorem sublist_setAdd {α : Type} [DecidableEq α] (l : List α) (a : α) :
    l.Sublist (setAdd l a) := by
  unfold setAdd
  split
  · exact List.Sublist.refl l
  · exact List.sublist_append_left l [a]

theorem mem_setAdd_self {α : Type} [DecidableEq α] (l : List α) (a : α) : a ∈ setAdd l a := by
  unfold setAdd
  split
  · assumption
  · simp

theorem setAdd_forall {α : Type} [DecidableEq α] {P : α → Prop} {l : List α} {a : α}
    (hl : ∀ x ∈ l, P x) (ha : P a) : ∀ x ∈ setAdd l a, P x := by
  unfold setAdd
  split
  · exact hl
  · intro x hx
    rcases List.mem_append.mp hx with hx | hx
    · exact hl x hx
    · rcases List.mem_singleton.mp hx with rfl
      exact ha

theorem setAdd_not_mem {α : Type} [DecidableEq α] {l : List α} {a : α} (h : a ∉ l) :
    setAdd l a = l ++ [a] := by
  unfold setAdd
  rw [if_neg h]

/-! ## Component lemmas for the generator units -/

theorem base_ctypes_nlfree : ∀ x ∈ BASE_CTYPES, NLfree x := by decide

theorem NLfree_choiceD {l : List String} (hl : ∀ x ∈ l, NLfree x) (hne : l ≠ []) (r : Rng) :
    NLfree (rngChoice l r).1 := hl _ (rngChoice_mem l r hne)

theorem choose_ctype_base (extra : List String) (r : Rng) :
    ∃ b ∈ BASE_CTYPES ++ extra,
      (choose_ctype extra r).1 = b ∨ (choose_ctype extra r).1 = b ++ "*" := by
  have hm := rngChoice_mem (BASE_CTYPES ++ extra) r (by simp [BASE_CTYPES])
  refine ⟨(rngChoice (BASE_CTYPES ++ extra) r).1, hm, ?_⟩
  unfold choose_ctype
  dsimp only
  split
  · exact Or.inr rfl
  · exact Or.inl rfl

theorem NLfree_choose_ctype {extra : List String} (hx : ∀ x ∈ extra, NLfree x) (r : Rng) :
    NLfree (choose_ctype extra r).1 := by
  rcases choose_ctype_base extra r with ⟨b, hb, hc | hc⟩ <;> rw [hc]
  · rcases List.mem_append.mp hb with h | h
    · exact base_ctypes_nlfree _ h
    · exact hx _ h
  · rcases List.mem_append.mp hb with h | h
    · exact NLfree_append (base_ctypes_nlfree _ h) (by decide)
    · exact NLfree_append (hx _ h) (by decide)

theorem append_star_ne_void (b : String) : b ++ "*" ≠ "void" := by
  intro h
  have h2 : (b ++ "*").data = "void".data := congrArg String.data h
  rw [String.data_append] at h2
  have e1 : "*".data = [Char.ofNat 42] := rfl
  rw [e1] at h2
  have h3 := congrArg List.getLast? h2
  rw [List.getLast?_concat] at h3
  have : "void".data.getLast? = some (Char.ofNat 100) := by decide
  rw [this] at h3
  exact absurd (Option.some.inj h3) (by decide)

theorem choose_ctype_ne_void {extra : List String} (hx : "void" ∉ extra) (r : Rng) :
    (choose_ctype extra r).1 ≠ "void" := by
  rcases choose_ctype_base extra r with ⟨b, hb, hc | hc⟩ <;> rw [hc]
  · rcases List.mem_append.mp hb with h | h
    · intro he
      rw [he] at h
      exact absurd h (by decide)
    · intro he
      rw [he] at h
      exact hx h
  · exact append_star_ne_void b

theorem sample2_mem (r : Rng) :
    (sample2 BASE_CTYPES r).1.1 ∈ BASE_CTYPES ∧ (sample2 BASE_CTYPES r).1.2 ∈ BASE_CTYPES := by
  unfold sample2 randBelow Rng.next
  dsimp only
  constructor
  · have h5 : r.s r.i % BASE_CTYPES.length < BASE_CTYPES.length :=
      Nat.mod_lt _ (by decide)
    rw [List.getD_eq_getElem _ _ h5]
    exact List.getElem_mem h5
  · have hlen : (BASE_CTYPES.set (r.s r.i % BASE_CTYPES.length)
        (BASE_CTYPES.getD (BASE_CTYPES.length - 1) "")).length = BASE_CTYPES.length := by
      rw [List.length_set]
    have h4 : r.s (r.i + 1) % (BASE_CTYPES.length - 1) < BASE_CTYPES.length - 1 :=
      Nat.mod_lt _ (by decide)
    have h4' : r.s (r.i + 1) % (BASE_CTYPES.length - 1) <
        (BASE_CTYPES.set (r.s r.i % BASE_CTYPES.length)
          (BASE_CTYPES.getD (BASE_CTYPES.length - 1) "")).length := by
      rw [hlen]
      omega
    rw [List.getD_eq_getElem _ _ h4']
    have hm := List.getElem_mem h4'
    rcases List.mem_or_eq_of_mem_set hm with h | h
    · exact h
    · rw [h]
      decide

theorem genParams_nlfree :
    ∀ (n : Nat) (tds : List String) (r : Rng), (∀ x ∈ tds, NLfree x) →
      ∀ p ∈ (genParams n tds r).1, NLfree p := by
  intro n
  induction n with
  | zero => intro tds r _ p hp; simp [genParams] at hp
  | succ m ih =>
    intro tds r htds p hp
    simp only [genParams] at hp
    rcases List.mem_cons.mp hp with rfl | hp2
    · exact NLfree_append (NLfree_append (NLfree_choose_ctype htds r) (by decide))
        (NLfree_fresh_name _ _)
    · exact ih tds _ htds p hp2

theorem structLines_nlfree :
    ∀ (n : Nat) (r : Rng), ∀ x ∈ (structLines n r).1, NLfree x := by
  intro n
  induction n with
  | zero => intro r x hx; simp [structLines] at hx
  | succ m ih =>
    intro r x hx
    simp only [structLines] at hx
    rcases List.mem_cons.mp hx with rfl | hx2
    · exact NLfree_append (NLfree_append (NLfree_append (NLfree_append (by decide)
        (NLfree_choiceD base_ctypes_nlfree (by decide) r)) (by decide))
        (NLfree_fresh_name _ _)) (by decide)
    · exact ih _ x hx2

theorem structLines_length : ∀ (n : Nat) (r : Rng), (structLines n r).1.length = n := by
  intro n
  induction n with
  | zero => intro r; rfl
  | succ m ih => intro r; simp only [structLines, List.length_cons, ih]

/-! ## Well-formedness of the generation state -/

/-- The reachable-state well-formedness the counting argument needs: every
stored type alias and every component of every stored signature is free of
newlines. -/
def GSok (st : GenState) : Prop :=
  (∀ x ∈ st.typedefs, NLfree x) ∧
  (∀ p ∈ st.funcs, NLfree p.1 ∧ NLfree p.2.1 ∧ NLfree p.2.2)

theorem GSok_init (sty : String) : GSok (initState sty) := by
  constructor <;> intro x hx <;> simp [initState] at hx

theorem GSok_ordS {o : SetOrd} {st : GenState} (hok : SetOrd.ok o) (hst : GSok st) :
    ∀ x ∈ o.ordS st.typedefs, NLfree x := by
  intro x hx
  exact hst.1 x ((hok.1 st.typedefs).mem_iff.mp hx)

theorem GSok_ordF {o : SetOrd} {st : GenState} (hok : SetOrd.ok o) (hst : GSok st) :
    ∀ p ∈ o.ordF st.funcs, NLfree p.1 ∧ NLfree p.2.1 ∧ NLfree p.2.2 := by
  intro p hp
  exact hst.2 p ((hok.2 st.funcs).mem_iff.mp hp)

/-! ## Newline counts of the fixed text pieces -/

@[simp] theorem countNL_fresh (r : Rng) (n : Nat) : countNL (fresh_name r n).1 = 0 :=
  NLfree_fresh_name r n

@[simp] theorem countNL_repr (n : Nat) : countNL (Nat.repr n) = 0 := NLfree_repr n

@[simp] theorem countNL_rv (ct : String) (r : Rng) : countNL (random_value ct r).1 = 0 :=
  NLfree_random_value ct r

@[simp] theorem countNL_u2f (r : Rng) : countNL (uniform2f r).1 = 0 := NLfree_uniform2f r

@[simp] theorem countNL_indent (s : String) : countNL (styleGet s).indent = 0 := NLfree_indent s

theorem NLfree_upper_fresh (r : Rng) (n : Nat) : NLfree (pyUpper (fresh_name r n).1) :=
  (lettered_pyUpper (lettered_fresh_name r n)).nlfree

theorem NLfree_cap_fresh (r : Rng) (n : Nat) : NLfree (pyCapitalize (fresh_name r n).1) :=
  (lettered_pyCapitalize (lettered_fresh_name r n)).nlfree

@[simp] theorem countNL_upper_fresh (r : Rng) (n : Nat) :
    countNL (pyUpper (fresh_name r n).1) = 0 := NLfree_upper_fresh r n

@[simp] theorem countNL_cap_fresh (r : Rng) (n : Nat) :
    countNL (pyCapitalize (fresh_name r n).1) = 0 := NLfree_cap_fresh r n

@[simp] theorem countNL_sample2_1 (r : Rng) : countNL (sample2 BASE_CTYPES r).1.1 = 0 :=
  base_ctypes_nlfree _ (sample2_mem r).1

@[simp] theorem countNL_sample2_2 (r : Rng) : countNL (sample2 BASE_CTYPES r).1.2 = 0 :=
  base_ctypes_nlfree _ (sample2_mem r).2

@[simp] theorem countNL_base_choice (r : Rng) : countNL (rngChoice BASE_CTYPES r).1 = 0 :=
  NLfree_choiceD base_ctypes_nlfree (by decide) r

@[simp] theorem countNL_printf : countNL PRINTF_LINE = 1 := by decide

theorem sum_map_le_const {α : Type} (l : List α) (f : α → Nat) (c : Nat)
    (h : ∀ a ∈ l, f a ≤ c) : (l.map f).sum ≤ l.length * c := by
  induction l with
  | nil => simp
  | cons x xs ih =>
    simp only [List.map_cons, List.sum_cons, List.length_cons]
    have hx := h x (by simp)
    have hxs := ih (fun a ha => h a (List.mem_cons_of_mem x ha))
    rw [Nat.succ_mul]
    omega

theorem hdrs_nlfree : ∀ x ∈ HDRS, NLfree x := by decide

theorem NLfree_enum_items {s : String} (hs : Lettered s) (n : Nat) :
    NLfree (pyJoin ", " ((List.range n).map (fun i => pyUpper s ++ "_" ++ Nat.repr i))) := by
  refine NLfree_pyJoin (by decide) ?_
  intro x hx
  rcases List.mem_map.mp hx with ⟨i, _, rfl⟩
  exact NLfree_append (NLfree_append (lettered_pyUpper hs).nlfree (by decide)) (NLfree_repr i)

theorem ne_empty_of_countNL {s : String} (h : 1 ≤ countNL s) : s ≠ "" := by
  intro he
  rw [he] at h
  exact absurd h (by decide)

/-! ## Per-unit newline bounds -/

theorem gen_comment_le (o : SetOrd) (st : GenState) (r : Rng) :
    countNL (gen_comment o st r).1 ≤ 17 := by
  unfold gen_comment
  dsimp only
  simp only [countNL_append, countNL_fresh]
  rw [countNL_of_NLfree (NLfree_choiceD (l := ["// TODO", "// FIXME", "// NOTE", "// HACK"])
      (by decide) (by decide) _)]
  have e1 : countNL ": " = 0 := by decide
  have e2 : countNL "\n" = 1 := by decide
  omega

theorem gen_include_le (o : SetOrd) (st : GenState) (r : Rng) :
    countNL (gen_include o st r).1 ≤ 17 := by
  unfold gen_include
  dsimp only
  have e1 : countNL "#include " = 0 := by decide
  have e2 : countNL "\n" = 1 := by decide
  split
  · dsimp only
    simp only [countNL_append]
    rw [countNL_of_NLfree (NLfree_choiceD hdrs_nlfree (by decide) _)]
    omega
  · rename_i hne
    dsimp only
    simp only [countNL_append]
    rw [countNL_of_NLfree (NLfree_choiceD (fun x hx => hdrs_nlfree x (List.mem_of_mem_filter hx))
      (fun hemp => hne (by rw [hemp]; rfl)) _)]
    omega

theorem gen_define_macro_obj_le (o : SetOrd) (st : GenState) (r : Rng) :
    countNL (gen_define_macro_obj o st r).1 ≤ 17 := by
  unfold gen_define_macro_obj
  dsimp only
  simp only [countNL_append, countNL_upper_fresh, countNL_repr]
  have e1 : countNL "#define " = 0 := by decide
  have e2 : countNL " " = 0 := by decide
  have e3 : countNL "\n" = 1 := by decide
  omega

theorem gen_define_macro_fn_le (o : SetOrd) (st : GenState) (r : Rng) :
    countNL (gen_define_macro_fn o st r).1 ≤ 17 := by
  unfold gen_define_macro_fn
  dsimp only
  simp only [countNL_append, countNL_upper_fresh, countNL_fresh]
  have e1 : countNL "#define " = 0 := by decide
  have e2 : countNL "(" = 0 := by decide
  have e3 : countNL ") ((" = 0 := by decide
  have e4 : countNL ") * (" = 0 := by decide
  have e5 : countNL "))\n" = 1 := by decide
  omega

theorem gen_typedef_le (o : SetOrd) (st : GenState) (r : Rng) :
    countNL (gen_typedef o st r).1 ≤ 17 := by
  unfold gen_typedef
  dsimp only
  simp only [countNL_append, countNL_fresh, countNL_base_choice]
  have e1 : countNL "typedef " = 0 := by decide
  have e2 : countNL " " = 0 := by decide
  have e3 : countNL ";\n" = 1 := by decide
  omega

theorem gen_enum_le (o : SetOrd) (st : GenState) (r : Rng) :
    countNL (gen_enum o st r).1 ≤ 17 := by
  unfold gen_enum
  dsimp only
  simp only [countNL_append, countNL_cap_fresh]
  rw [countNL_of_NLfree (NLfree_enum_items (lettered_pyCapitalize (lettered_fresh_name _ _)) _)]
  have e1 : countNL "typedef enum \x7b " = 0 := by decide
  have e2 : countNL " \x7d " = 0 := by decide
  have e3 : countNL ";\n" = 1 := by decide
  omega

theorem gen_union_le (o : SetOrd) (st : GenState) (r : Rng) :
    countNL (gen_union o st r).1 ≤ 17 := by
  unfold gen_union
  dsimp only
  simp only [countNL_append, countNL_cap_fresh, countNL_fresh, countNL_sample2_1,
    countNL_sample2_2]
  have e1 : countNL "typedef union " = 0 := by decide
  have e2 : countNL " \x7b\n" = 1 := by decide
  have e3 : countNL "    " = 0 := by decide
  have e4 : countNL " " = 0 := by decide
  have e5 : countNL ";" = 0 := by decide
  have e6 : countNL "\n" = 1 := by decide
  have e7 : countNL "\n\x7d " = 1 := by decide
  have e8 : countNL ";\n" = 1 := by decide
  omega

theorem gen_struct_le (o : SetOrd) (st : GenState) (r : Rng) :
    countNL (gen_struct o st r).1 ≤ 17 := by
  unfold gen_struct
  dsimp only
  simp only [countNL_append, countNL_cap_fresh]
  have hj := countNL_pyJoin_nl _ (structLines_nlfree
    (randint 1 3 (fresh_name (randint 3 6 r).2 (randint 3 6 r).1).2).1
    (randint 1 3 (fresh_name (randint 3 6 r).2 (randint 3 6 r).1).2).2)
  rw [structLines_length] at hj
  have hc := randint_le 1 3 (fresh_name (randint 3 6 r).2 (randint 3 6 r).1).2 (by omega)
  have e1 : countNL "typedef struct " = 0 := by decide
  have e2 : countNL " \x7b\n" = 1 := by decide
  have e3 : countNL "\n\x7d " = 1 := by decide
  have e4 : countNL ";\n" = 1 := by decide
  omega

theorem gen_var_decl_le (o : SetOrd) (st : GenState) (r : Rng) (hok : SetOrd.ok o)
    (hst : GSok st) : countNL (gen_var_decl o st r).1 ≤ 17 := by
  unfold gen_var_decl
  dsimp only
  have hct : countNL (choose_ctype (o.ordS st.typedefs) r).1 = 0 :=
    countNL_of_NLfree (NLfree_choose_ctype (GSok_ordS hok hst) r)
  have e1 : countNL " " = 0 := by decide
  have e2 : countNL ";\n" = 1 := by decide
  have e3 : countNL " = " = 0 := by decide
  have e4 : countNL "" = 0 := by decide
  split
  · split
    · simp only [countNL_append, countNL_fresh, countNL_rv]
      omega
    · simp only [countNL_append, countNL_fresh]
      omega
  · simp only [countNL_append, countNL_fresh]
    omega

theorem gen_func_decl_le (o : SetOrd) (st : GenState) (r : Rng) (hok : SetOrd.ok o)
    (hst : GSok st) : countNL (gen_func_decl o st r).1 ≤ 17 := by
  unfold gen_func_decl
  dsimp only
  have hct : countNL (choose_ctype (o.ordS st.typedefs) r).1 = 0 :=
    countNL_of_NLfree (NLfree_choose_ctype (GSok_ordS hok hst) r)
  have hps : ∀ (n : Nat) (r2 : Rng),
      countNL (if (genParams n (o.ordS st.typedefs) r2).1.isEmpty then "void"
        else pyJoin ", " (genParams n (o.ordS st.typedefs) r2).1) = 0 := by
    intro n r2
    split
    · decide
    · exact countNL_of_NLfree
        (NLfree_pyJoin (by decide) (genParams_nlfree n _ r2 (GSok_ordS hok hst)))
  have e1 : countNL " " = 0 := by decide
  have e2 : countNL "(" = 0 := by decide
  have e3 : countNL ");\n" = 1 := by decide
  simp only [countNL_append, countNL_fresh, hct, hps]
  omega

theorem gen_func_def_le (o : SetOrd) (st : GenState) (r : Rng) (hok : SetOrd.ok o)
    (hst : GSok st) : countNL (gen_func_def o st r).1 ≤ 17 := by
  unfold gen_func_def
  dsimp only
  split
  · show countNL "" ≤ 17
    decide
  · rename_i hne
    have hfne : o.ordF st.funcs ≠ [] := by
      intro he
      have hl := (hok.2 st.funcs).length_eq
      rw [he] at hl
      have : st.funcs = [] := List.length_eq_zero.mp hl.symm
      rw [this] at hne
      exact hne rfl
    have hsig := GSok_ordF hok hst _ (rngChoice_mem (o.ordF st.funcs) r hfne)
    have hhdr : countNL ((rngChoice (o.ordF st.funcs) r).1.1 ++ " " ++
        (rngChoice (o.ordF st.funcs) r).1.2.1 ++ "(" ++
        (rngChoice (o.ordF st.funcs) r).1.2.2 ++ ")") = 0 := by
      simp only [countNL_append, countNL_of_NLfree hsig.1, countNL_of_NLfree hsig.2.1,
        countNL_of_NLfree hsig.2.2]
      decide
    have hbr := countNL_brace_le st.style ((rngChoice (o.ordF st.funcs) r).1.1 ++ " " ++
        (rngChoice (o.ordF st.funcs) r).1.2.1 ++ "(" ++
        (rngChoice (o.ordF st.funcs) r).1.2.2 ++ ")")
    have e1 : countNL "\x7d\n\n" = 2 := by decide
    have e2 : countNL "// function body\n" = 1 := by decide
    have e3 : countNL "return " = 0 := by decide
    have e4 : countNL ";\n" = 1 := by decide
    split
    · simp only [countNL_append, countNL_indent]
      omega
    · simp only [countNL_append, countNL_indent, countNL_rv]
      omega

theorem gen_switch_le (o : SetOrd) (st : GenState) (r : Rng) :
    countNL (gen_switch o st r).1 ≤ 17 := by
  unfold gen_switch
  dsimp only
  have hhdr : countNL ("switch (" ++ (fresh_name r 6).1 ++ ")") = 0 := by
    simp only [countNL_append, countNL_fresh]
    decide
  have hbr := countNL_brace_le st.style ("switch (" ++ (fresh_name r 6).1 ++ ")")
  have hcase : countNL (pyConcat ((List.range (randint 2 4 (fresh_name r 6).2).1).map
      (fun i => (styleGet st.style).indent ++ "case " ++ Nat.repr i ++ ":\n" ++
        (styleGet st.style).indent ++ (styleGet st.style).indent ++ (fresh_name r 6).1 ++
        " += " ++ Nat.repr i ++ ";\n" ++ (styleGet st.style).indent ++
        (styleGet st.style).indent ++ "break;\n"))) ≤
      (randint 2 4 (fresh_name r 6).2).1 * 3 := by
    rw [countNL_pyConcat, List.map_map]
    refine le_trans (sum_map_le_const _ _ 3 ?_) (le_of_eq (by rw [List.length_range]))
    intro i _
    simp only [Function.comp_apply, countNL_append, countNL_repr, countNL_indent,
      countNL_fresh]
    have e1 : countNL "case " = 0 := by decide
    have e2 : countNL ":\n" = 1 := by decide
    have e3 : countNL " += " = 0 := by decide
    have e4 : countNL ";\n" = 1 := by decide
    have e5 : countNL "break;\n" = 1 := by decide
    omega
  have hnc := randint_le 2 4 (fresh_name r 6).2 (by omega)
  have e1 : countNL "default:\n" = 1 := by decide
  have e2 : countNL "break;\n\x7d\n" = 2 := by decide
  simp only [countNL_append, countNL_indent]
  omega

theorem gen_conditional_le (o : SetOrd) (st : GenState) (r : Rng) :
    countNL (gen_conditional o st r).1 ≤ 17 := by
  unfold gen_conditional
  dsimp only
  have h1 : countNL ("if (" ++ (fresh_name r 6).1 ++ " > " ++
      Nat.repr (randint 0 10 (fresh_name r 6).2).1 ++ ")") = 0 := by
    simp only [countNL_append, countNL_fresh, countNL_repr]
    decide
  have hb1 := countNL_brace_le st.style ("if (" ++ (fresh_name r 6).1 ++ " > " ++
      Nat.repr (randint 0 10 (fresh_name r 6).2).1 ++ ")")
  have hb2 := countNL_brace_le st.style "else"
  have e0 : countNL "else" = 0 := by decide
  have e1 : countNL " = " = 0 := by decide
  have e2 : countNL " += " = 0 := by decide
  have e3 : countNL ";\n\x7d\n" = 2 := by decide
  simp only [countNL_append, countNL_fresh, countNL_repr, countNL_indent]
  omega

theorem gen_loop_le (o : SetOrd) (st : GenState) (r : Rng) :
    countNL (gen_loop o st r).1 ≤ 17 := by
  unfold gen_loop
  dsimp only
  have h1 : countNL ("for (int " ++ (fresh_name r 6).1 ++ " = 0; " ++ (fresh_name r 6).1 ++
      " < " ++ Nat.repr (randint 1 5 (fresh_name r 6).2).1 ++ "; ++" ++ (fresh_name r 6).1 ++
      ")") = 0 := by
    simp only [countNL_append, countNL_fresh, countNL_repr]
    decide
  have hb := countNL_brace_le st.style ("for (int " ++ (fresh_name r 6).1 ++ " = 0; " ++
      (fresh_name r 6).1 ++ " < " ++ Nat.repr (randint 1 5 (fresh_name r 6).2).1 ++ "; ++" ++
      (fresh_name r 6).1 ++ ")")
  have e1 : countNL "// loop body\n\x7d\n" = 2 := by decide
  simp only [countNL_append, countNL_indent]
  omega

theorem mainBodyLines_le :
    ∀ (n : Nat) (o : SetOrd) (st : GenState) (ind : String) (r : Rng), SetOrd.ok o → GSok st →
      NLfree ind → countNL (pyConcat (mainBodyLines n o st ind r).1) ≤ n := by
  intro n
  induction n with
  | zero =>
    intro o st ind r _ _ _
    show countNL (pyConcat []) ≤ 0
    decide
  | succ m ih =>
    intro o st ind r hok hst hind
    simp only [mainBodyLines]
    split
    · show countNL (pyConcat ((ind ++ PRINTF_LINE) :: _)) ≤ m + 1
      simp only [pyConcat, countNL_append, countNL_printf, countNL_of_NLfree hind]
      have := ih o st ind r hok hst hind
      omega
    · rename_i hfne0
      have hfne : st.funcs ≠ [] := by
        intro he
        rw [he] at hfne0
        exact hfne0 rfl
      have hofne : o.ordF st.funcs ≠ [] := by
        intro he
        have hl := (hok.2 st.funcs).length_eq
        rw [he] at hl
        exact hfne (List.length_eq_zero.mp hl.symm)
      split
      · have hsig := GSok_ordF hok hst _
          (rngChoice_mem (o.ordF st.funcs) (randReal53 r).2 hofne)
        have hargs : countNL (if (rngChoice (o.ordF st.funcs) (randReal53 r).2).1.2.2 ≠ "void"
            then pyJoin ", " (List.replicate
              ((rngChoice (o.ordF st.funcs) (randReal53 r).2).1.2.2.toList.count
                (Char.ofNat 44) + 1) "0")
            else "") = 0 := by
          split
          · refine countNL_of_NLfree (NLfree_pyJoin (by decide) ?_)
            intro x hx
            rw [List.eq_of_mem_replicate hx]
            decide
          · decide
        simp only [pyConcat, countNL_append, countNL_of_NLfree hind,
          countNL_of_NLfree hsig.2.1, hargs]
        have := ih o st ind (rngChoice (o.ordF st.funcs) (randReal53 r).2).2 hok hst hind
        have e1 : countNL "(" = 0 := by decide
        have e2 : countNL ");\n" = 1 := by decide
        omega
      · simp only [pyConcat, countNL_append, countNL_printf, countNL_of_NLfree hind]
        have := ih o st ind (randReal53 r).2 hok hst hind
        omega

theorem gen_main_le (o : SetOrd) (st : GenState) (r : Rng) (hok : SetOrd.ok o)
    (hst : GSok st) : countNL (gen_main o st r).1 ≤ 7 := by
  unfold gen_main
  dsimp only
  split
  · show countNL "" ≤ 7
    decide
  · have hbr := countNL_brace_le st.style "int main(void)"
    have hbody := mainBodyLines_le (randint 1 3 r).1 o { st with main_written := true }
      (styleGet st.style).indent (randint 1 3 r).2 hok hst (NLfree_indent _)
    have hcnt := randint_le 1 3 r (by omega)
    have e1 : countNL "int main(void)" = 0 := by decide
    have e2 : countNL "return 0;\n" = 1 := by decide
    have e3 : countNL "\x7d\n" = 1 := by decide
    simp only [countNL_append, countNL_indent]
    omega

/-! ## Entry-point unit facts -/

theorem gen_main_already (o : SetOrd) (st : GenState) (r : Rng) (h : st.main_written = true) :
    gen_main o st r = ("", st, r) := by
  unfold gen_main
  rw [if_pos h]

theorem gen_main_count_pos (o : SetOrd) (st : GenState) (r : Rng)
    (h : st.main_written = false) : 1 ≤ countNL (gen_main o st r).1 := by
  unfold gen_main
  rw [if_neg (by rw [h]; exact Bool.false_ne_true)]
  dsimp only
  simp only [countNL_append]
  have := countNL_brace_ge st.style "int main(void)"
  omega

theorem gen_main_first (o : SetOrd) (st : GenState) (r : Rng) (h : st.main_written = false) :
    (gen_main o st r).1 ≠ "" ∧ (gen_main o st r).2.1.main_written = true := by
  constructor
  · exact ne_empty_of_countNL (gen_main_count_pos o st r h)
  · unfold gen_main
    rw [if_neg (by rw [h]; exact Bool.false_ne_true)]

/-! ## Dispatcher facts over the registry -/

theorem runUnit_main : ∀ (o : SetOrd) (st : GenState) (r : Rng),
    runUnit "main" o st r = some (gen_main o st r) := fun _ _ _ => rfl

theorem runUnit_bound (kind : String) (o : SetOrd) (st : GenState) (r : Rng)
    (out : String × GenState × Rng) (hok : SetOrd.ok o) (hst : GSok st)
    (h : runUnit kind o st r = some out) : countNL out.1 ≤ 17 ∧ GSok out.2.1 := by
  unfold runUnit at h
  split at h
  · injection h with h
    subst h
    exact ⟨gen_comment_le o st r, hst⟩
  · injection h with h
    subst h
    exact ⟨gen_include_le o st r, hst⟩
  · injection h with h
    subst h
    exact ⟨gen_define_macro_obj_le o st r, hst⟩
  · injection h with h
    subst h
    exact ⟨gen_define_macro_fn_le o st r, hst⟩
  · injection h with h
    subst h
    exact ⟨gen_typedef_le o st r, setAdd_forall hst.1 (NLfree_fresh_name _ _), hst.2⟩
  · injection h with h
    subst h
    exact ⟨gen_enum_le o st r, setAdd_forall hst.1 (NLfree_cap_fresh _ _), hst.2⟩
  · injection h with h
    subst h
    exact ⟨gen_union_le o st r, hst⟩
  · injection h with h
    subst h
    exact ⟨gen_struct_le o st r, hst⟩
  · injection h with h
    subst h
    exact ⟨gen_var_decl_le o st r hok hst, hst⟩
  · injection h with h
    subst h
    refine ⟨gen_func_decl_le o st r hok hst, hst.1,
      setAdd_forall hst.2 ⟨NLfree_choose_ctype (GSok_ordS hok hst) r,
        NLfree_fresh_name _ _, ?_⟩⟩
    dsimp only
    split
    · decide
    · exact NLfree_pyJoin (by decide) (genParams_nlfree _ _ _ (GSok_ordS hok hst))
  · injection h with h
    subst h
    refine ⟨gen_func_def_le o st r hok hst, ?_⟩
    unfold gen_func_def
    dsimp only
    split <;> exact hst
  · injection h with h
    subst h
    exact ⟨gen_switch_le o st r, hst⟩
  · injection h with h
    subst h
    exact ⟨gen_conditional_le o st r, hst⟩
  · injection h with h
    subst h
    exact ⟨gen_loop_le o st r, hst⟩
  · injection h with h
    subst h
    refine ⟨le_trans (gen_main_le o st r hok hst) (by omega), ?_⟩
    unfold gen_main
    split <;> exact hst
  · exact Option.noConfusion h

theorem runUnit_state (kind : String) (o : SetOrd) (st : GenState) (r : Rng)
    (out : String × GenState × Rng) (h : runUnit kind o st r = some out) :
    st.typedefs.Sublist out.2.1.typedefs ∧ st.structs.Sublist out.2.1.structs ∧
      st.funcs.Sublist out.2.1.funcs ∧
      (kind ≠ "include" → out.2.1.headers = st.headers) ∧
      (kind ≠ "main" → out.2.1.main_written = st.main_written) := by
  unfold runUnit at h
  split at h
  · injection h with h
    subst h
    exact ⟨.refl _, .refl _, .refl _, fun _ => rfl, fun _ => rfl⟩
  · injection h with h
    subst h
    exact ⟨.refl _, .refl _, .refl _, fun hk => absurd rfl hk, fun _ => rfl⟩
  · injection h with h
    subst h
    exact ⟨.refl _, .refl _, .refl _, fun _ => rfl, fun _ => rfl⟩
  · injection h with h
    subst h
    exact ⟨.refl _, .refl _, .refl _, fun _ => rfl, fun _ => rfl⟩
  · injection h with h
    subst h
    exact ⟨sublist_setAdd _ _, .refl _, .refl _, fun _ => rfl, fun _ => rfl⟩
  · injection h with h
    subst h
    exact ⟨sublist_setAdd _ _, .refl _, .refl _, fun _ => rfl, fun _ => rfl⟩
  · injection h with h
    subst h
    exact ⟨.refl _, sublist_setAdd _ _, .refl _, fun _ => rfl, fun _ => rfl⟩
  · injection h with h
    subst h
    exact ⟨.refl _, sublist_setAdd _ _, .refl _, fun _ => rfl, fun _ => rfl⟩
  · injection h with h
    subst h
    exact ⟨.refl _, .refl _, .refl _, fun _ => rfl, fun _ => rfl⟩
  · injection h with h
    subst h
    exact ⟨.refl _, .refl _, sublist_setAdd _ _, fun _ => rfl, fun _ => rfl⟩
  · injection h with h
    subst h
    unfold gen_func_def
    dsimp only
    split
    · exact ⟨.refl _, .refl _, .refl _, fun _ => rfl, fun _ => rfl⟩
    · exact ⟨.refl _, .refl _, .refl _, fun _ => rfl, fun _ => rfl⟩
  · injection h with h
    subst h
    exact ⟨.refl _, .refl _, .refl _, fun _ => rfl, fun _ => rfl⟩
  · injection h with h
    subst h
    exact ⟨.refl _, .refl _, .refl _, fun _ => rfl, fun _ => rfl⟩
  · injection h with h
    subst h
    exact ⟨.refl _, .refl _, .refl _, fun _ => rfl, fun _ => rfl⟩
  · injection h with h
    subst h
    unfold gen_main
    dsimp only
    split
    · exact ⟨.refl _, .refl _, .refl _, fun _ => rfl, fun hk => absurd rfl hk⟩
    · exact ⟨.refl _, .refl _, .refl _, fun _ => rfl, fun hk => absurd rfl hk⟩
  · exact Option.noConfusion h

/-! ## The assembly loop -/

def mainCount (ps : List (String × String)) : Nat :=
  (ps.filter (fun p => p.1 == "main")).length

theorem mainCount_append (ps : List (String × String)) (q : String × String) :
    mainCount (ps ++ [q]) = mainCount ps + (if q.1 = "main" then 1 else 0) := by
  unfold mainCount
  rw [List.filter_append, List.length_append]
  congr 1
  by_cases hq : q.1 = "main"
  · rw [if_pos hq]
    simp [List.filter, hq]
  · rw [if_neg hq]
    have hb : (q.1 == "main") = false := beq_eq_false_iff_ne.mpr hq
    simp [List.filter, hb]

theorem countNL_parts_append (ps : List (String × String)) (q : String × String) :
    countNL (pyConcat ((ps ++ [q]).map Prod.snd)) =
      countNL (pyConcat (ps.map Prod.snd)) + countNL q.2 := by
  rw [List.map_append, countNL_pyConcat, countNL_pyConcat, List.map_append, List.sum_append]
  simp

theorem loopStep_cases (cfg : CConfig) (o : SetOrd) (ls ls' : LoopSt)
    (h : loopStep cfg o ls = some ls') :
    ∃ kind r1 out,
      rng_choices (cfg.weights.map Prod.fst) (cfg.weights.map Prod.snd) ls.rng
        = some (kind, r1) ∧
      runUnit kind o ls.st r1 = some out ∧
      ((out.1 = "" ∧ ls' = { ls with st := out.2.1, rng := out.2.2 }) ∨
       (out.1 ≠ "" ∧ ls' = ⟨out.2.1, out.2.2, ls.parts ++ [(kind, out.1)],
          ls.lines + countNL out.1⟩)) := by
  unfold loopStep at h
  split at h
  · exact Option.noConfusion h
  · rename_i kr hkr
    split at h
    · exact Option.noConfusion h
    · rename_i out hout
      refine ⟨kr.1, kr.2, out, ?_, hout, ?_⟩
      · rw [← hkr]
      · split at h
        · injection h with h
          exact Or.inl ⟨by assumption, h.symm⟩
        · injection h with h
          exact Or.inr ⟨by assumption, h.symm⟩

theorem loopStep_inv (cfg : CConfig) (o : SetOrd) (ls ls' : LoopSt) (hok : SetOrd.ok o)
    (hst : GSok ls.st) (hcnt : countNL (pyConcat (ls.parts.map Prod.snd)) = ls.lines)
    (h : loopStep cfg o ls = some ls') :
    GSok ls'.st ∧ countNL (pyConcat (ls'.parts.map Prod.snd)) = ls'.lines ∧
      ls.lines ≤ ls'.lines ∧ ls'.lines ≤ ls.lines + 17 := by
  rcases loopStep_cases cfg o ls ls' h with ⟨k, r1, out, hch, hrun, hcase⟩
  have hb := runUnit_bound k o ls.st r1 out hok hst hrun
  rcases hcase with ⟨hemp, rfl⟩ | ⟨hne, rfl⟩
  · exact ⟨hb.2, hcnt, le_refl _, Nat.le_add_right ls.lines 17⟩
  · refine ⟨hb.2, ?_, Nat.le_add_right _ _, Nat.add_le_add_left hb.1 _⟩
    show countNL (pyConcat ((ls.parts ++ [(k, out.1)]).map Prod.snd)) =
      ls.lines + countNL out.1
    rw [countNL_parts_append, hcnt]

theorem loopGo_exit (cfg : CConfig) (o : SetOrd) :
    ∀ (fuel : Nat) (ls ls' : LoopSt), loopGo cfg o fuel ls = some ls' →
      ls.lines ≤ ls'.lines ∧ cfg.loc ≤ (ls'.lines : Int) := by
  intro fuel
  induction fuel with
  | zero =>
    intro ls ls' h
    unfold loopGo at h
    split at h
    · exact Option.noConfusion h
    · rename_i hge
      injection h with h
      subst h
      exact ⟨le_refl _, by omega⟩
  | succ n ih =>
    intro ls ls' h
    rw [loopGo] at h
    split at h
    · rcases hstep : loopStep cfg o ls with _ | ls1
      · rw [hstep] at h
        exact Option.noConfusion h
      · rw [hstep] at h
        have h1 := ih ls1 ls' h
        rcases loopStep_cases cfg o ls ls1 hstep with ⟨k, r1, out, _, _, hcase⟩
        rcases hcase with ⟨_, rfl⟩ | ⟨_, rfl⟩
        · exact ⟨h1.1, h1.2⟩
        · exact ⟨le_trans (Nat.le_add_right _ _) h1.1, h1.2⟩
    · rename_i hge
      injection h with h
      subst h
      exact ⟨le_refl _, by omega⟩

theorem loopGo_bound (cfg : CConfig) (o : SetOrd) (hok : SetOrd.ok o) :
    ∀ (fuel : Nat) (ls ls' : LoopSt),
      GSok ls.st → countNL (pyConcat (ls.parts.map Prod.snd)) = ls.lines →
      loopGo cfg o fuel ls = some ls' →
      GSok ls'.st ∧ countNL (pyConcat (ls'.parts.map Prod.snd)) = ls'.lines ∧
        ls'.lines ≤ max ls.lines ((cfg.loc - 1).toNat + 17) := by
  intro fuel
  induction fuel with
  | zero =>
    intro ls ls' hst hcnt h
    unfold loopGo at h
    split at h
    · exact Option.noConfusion h
    · injection h with h
      subst h
      exact ⟨hst, hcnt, le_max_left _ _⟩
  | succ n ih =>
    intro ls ls' hst hcnt h
    rw [loopGo] at h
    split at h
    · rename_i hlt
      rcases hstep : loopStep cfg o ls with _ | ls1
      · rw [hstep] at h
        exact Option.noConfusion h
      · rw [hstep] at h
        have hs := loopStep_inv cfg o ls ls1 hok hst hcnt hstep
        have h1 := ih ls1 ls' hs.1 hs.2.1 h
        refine ⟨h1.1, h1.2.1, ?_⟩
        have hup : ls1.lines ≤ (cfg.loc - 1).toNat + 17 := by
          have := hs.2.2.2
          omega
        have := h1.2.2
        omega
    · injection h with h
      subst h
      exact ⟨hst, hcnt, le_max_left _ _⟩

theorem loopStep_mainCount (cfg : CConfig) (o : SetOrd) (ls ls' : LoopSt)
    (hmc : mainCount ls.parts = (if ls.st.main_written then 1 else 0))
    (h : loopStep cfg o ls = some ls') :
    mainCount ls'.parts = (if ls'.st.main_written then 1 else 0) := by
  rcases loopStep_cases cfg o ls ls' h with ⟨k, r1, out, hch, hrun, hcase⟩
  by_cases hk : k = "main"
  · subst hk
    rw [runUnit_main] at hrun
    injection hrun with hrun
    subst hrun
    by_cases hw : ls.st.main_written = true
    · rcases hcase with ⟨hemp, rfl⟩ | ⟨hne, rfl⟩
      · show mainCount ls.parts = _
        rw [gen_main_already o ls.st r1 hw]
        rw [hmc]
      · rw [gen_main_already o ls.st r1 hw] at hne
        exact absurd rfl hne
    · have hw' : ls.st.main_written = false := Bool.not_eq_true _ ▸ eq_false_of_ne_true hw
      have hf := gen_main_first o ls.st r1 hw'
      rcases hcase with ⟨hemp, rfl⟩ | ⟨hne, rfl⟩
      · exact absurd hemp hf.1
      · show mainCount (ls.parts ++ [("main", (gen_main o ls.st r1).1)]) = _
        rw [mainCount_append, hmc, hw', hf.2]
        simp
  · have hs := runUnit_state k o ls.st r1 out hrun
    have hflag := hs.2.2.2.2 hk
    rcases hcase with ⟨hemp, rfl⟩ | ⟨hne, rfl⟩
    · show mainCount ls.parts = (if out.2.1.main_written then 1 else 0)
      rw [hflag, hmc]
    · show mainCount (ls.parts ++ [(k, out.1)]) = (if out.2.1.main_written then 1 else 0)
      rw [mainCount_append, hflag, hmc]
      dsimp only
      rw [if_neg hk]
      omega

theorem loopGo_mainCount (cfg : CConfig) (o : SetOrd) :
    ∀ (fuel : Nat) (ls ls' : LoopSt),
      mainCount ls.parts = (if ls.st.main_written then 1 else 0) →
      loopGo cfg o fuel ls = some ls' →
      mainCount ls'.parts = (if ls'.st.main_written then 1 else 0) := by
  intro fuel
  induction fuel with
  | zero =>
    intro ls ls' hmc h
    unfold loopGo at h
    split at h
    · exact Option.noConfusion h
    · injection h with h
      subst h
      exact hmc
  | succ n ih =>
    intro ls ls' hmc h
    rw [loopGo] at h
    split at h
    · rcases hstep : loopStep cfg o ls with _ | ls1
      · rw [hstep] at h
        exact Option.noConfusion h
      · rw [hstep] at h
        exact ih ls1 ls' (loopStep_mainCount cfg o ls ls1 hmc hstep) h
    · injection h with h
      subst h
      exact hmc

/-! ## Setup for the claim theorems -/

def zeroStream : Nat → Nat := fun _ => 0

theorem ordId_ok : SetOrd.ok ordId :=
  ⟨fun l => List.Perm.refl l, fun l => List.Perm.refl l⟩

theorem ordRev_ok : SetOrd.ok ordRev :=
  ⟨fun l => List.reverse_perm l, fun l => List.reverse_perm l⟩

theorem buildInit_lines (cfg : CConfig) (stream : Nat → Nat) :
    (buildInit cfg stream).lines = countNL PREAMBLE := rfl

theorem buildInit_count (cfg : CConfig) (stream : Nat → Nat) :
    countNL (pyConcat ((buildInit cfg stream).parts.map Prod.snd)) =
      (buildInit cfg stream).lines := by
  show countNL (PREAMBLE ++ "") = countNL PREAMBLE
  rw [String.append_empty]

theorem buildInit_gsok (cfg : CConfig) (stream : Nat → Nat) :
    GSok (buildInit cfg stream).st := by
  constructor <;> intro x hx <;> exact absurd hx (List.not_mem_nil x)

theorem buildInit_mainCount (cfg : CConfig) (stream : Nat → Nat) :
    mainCount (buildInit cfg stream).parts =
      (if (buildInit cfg stream).st.main_written then 1 else 0) := by
  show mainCount [("pre", PREAMBLE)] = (if false = true then 1 else 0)
  decide

/-- The literal random_value emits is always consistent, in the sense of the
spec literalFor contract, with the base type random_value was called with. -/
theorem random_value_spec (bt : String) (r : Rng) (hb : bt ∈ BASE_CTYPES) :
    specLiteralFor bt (random_value bt r).1 := by
  have hnum : ∀ (ct : String), ct = "int" ∨ ct = "long" →
      ∃ n ∈ List.range 101, (random_value ct r).1 =
        Nat.repr n ++ (if ct = "long" then "L" else "") := by
    intro ct hct
    refine ⟨(randint 0 100 r).1, ?_, ?_⟩
    · rw [List.mem_range]
      have := randint_le 0 100 r (by omega)
      omega
    · rcases hct with rfl | rfl
      · rfl
      · rfl
  simp only [BASE_CTYPES, List.mem_cons, List.not_mem_nil, or_false] at hb
  rcases hb with rfl | rfl | rfl | rfl | rfl
  · unfold specLiteralFor
    rw [if_neg (by decide), if_neg (by decide), if_pos rfl]
    rcases hnum "int" (Or.inl rfl) with ⟨n, hn, he⟩
    rw [if_neg (by decide)] at he
    rw [String.append_empty] at he
    exact ⟨n, hn, he⟩
  · unfold specLiteralFor
    rw [if_neg (by decide), if_neg (by decide), if_neg (by decide), if_pos rfl]
    rcases hnum "long" (Or.inr rfl) with ⟨n, hn, he⟩
    rw [if_pos rfl] at he
    exact ⟨n, hn, he⟩
  · unfold specLiteralFor
    rw [if_neg (by decide), if_neg (by decide), if_neg (by decide), if_neg (by decide)]
    exact ⟨r.s r.i % 10001, by rw [List.mem_range]; exact Nat.mod_lt _ (by omega), rfl⟩
  · unfold specLiteralFor
    rw [if_neg (by decide), if_neg (by decide), if_neg (by decide), if_neg (by decide)]
    exact ⟨r.s r.i % 10001, by rw [List.mem_range]; exact Nat.mod_lt _ (by omega), rfl⟩
  · unfold specLiteralFor
    rw [if_neg (by decide), if_pos rfl]
    exact ⟨(rngChoice LETTERS r).1, rngChoice_mem LETTERS r (by decide), rfl⟩

/-! ## A configuration on which the loop never terminates -/

/-- A configuration the constructor accepts: all weight on the entry-point
unit.  After the first iteration the entry-point unit returns only empty
fragments, so the loop guard holds forever. -/
def cfg1 : CConfig := { loc := 100, style := "kr", weights := [("main", 1)] }

theorem cfg1_choices (r : Rng) :
    rng_choices (cfg1.weights.map Prod.fst) (cfg1.weights.map Prod.snd) r =
      some ("main", (randReal53 r).2) := rfl

theorem cfg1_stuck : ∀ (fuel : Nat) (ls : LoopSt), ls.st.main_written = true →
    (ls.lines : Int) < cfg1.loc → loopGo cfg1 ordId fuel ls = none := by
  intro fuel
  induction fuel with
  | zero =>
    intro ls hw hlt
    unfold loopGo
    rw [if_pos hlt]
  | succ n ih =>
    intro ls hw hlt
    obtain ⟨⟨sty, tds, strs, fns, hdrs, mw⟩, rng, parts, lines⟩ := ls
    simp only at hw hlt
    subst hw
    rw [loopGo, if_pos hlt]
    have hstep : loopStep cfg1 ordId ⟨⟨sty, tds, strs, fns, hdrs, true⟩, rng, parts, lines⟩ =
        some ⟨⟨sty, tds, strs, fns, hdrs, true⟩, (randReal53 rng).2, parts, lines⟩ := rfl
    rw [hstep]
    exact ih _ rfl hlt

theorem cfg1_none : ∀ fuel : Nat, build_c cfg1 ordId zeroStream fuel = none := by
  have hgo : ∀ f, loopGo cfg1 ordId f (buildInit cfg1 zeroStream) = none := by
    intro f
    cases f with
    | zero => rfl
    | succ n =>
      rw [loopGo, if_pos (by decide)]
      rcases hstep : loopStep cfg1 ordId (buildInit cfg1 zeroStream) with _ | ls1
      · rfl
      · have hproj : (loopStep cfg1 ordId (buildInit cfg1 zeroStream)).map
            (fun ls => (ls.st.main_written, ls.lines)) = some (true, 6) := by decide
        rw [hstep] at hproj
        simp only [Option.map_some'] at hproj
        rw [Option.some.injEq, Prod.mk.injEq] at hproj
        exact cfg1_stuck n ls1 hproj.1 (by rw [hproj.2]; decide)
  intro fuel
  unfold build_c buildCRun
  rw [hgo fuel]
  rfl

/-! ## The claims -/

/-- C1, counterexample.  The claim asserts that for every configuration
accepted at construction the weighted assembly loop reaches the target size
and returns an assembled text.  For the accepted configuration cfg1 (target
100 lines, all weight on the entry-point unit) this is false: no amount of
fuel makes build_c return a text, because after the first iteration every
drawn unit contributes an empty fragment and the line count stays at 6 < 100
forever, for every random stream (shown here for the all-zero stream). -/
theorem c1_counterexample : ¬ ∃ fuel : Nat, (build_c cfg1 ordId zeroStream fuel).isSome = true := by
  rintro ⟨fuel, hf⟩
  rw [cfg1_none fuel] at hf
  exact Bool.false_ne_true hf

/-- C1, amended.  What does hold of the loop: the emitted-line count never
decreases across iterations (every iteration either advances it or costs
nothing), and whenever the loop exits, the count has reached the configured
target size.  Termination itself is not guaranteed for every accepted
configuration. -/
theorem c1_amended (cfg : CConfig) (o : SetOrd) (fuel : Nat) (ls ls' : LoopSt)
    (h : loopGo cfg o fuel ls = some ls') :
    ls.lines ≤ ls'.lines ∧ cfg.loc ≤ (ls'.lines : Int) :=
  loopGo_exit cfg o fuel ls ls' h

def cfgW1 : CConfig := { loc := 0, style := "kr", weights := [("comment", 1)] }

/-- C1, witness: the amended statement applied to a loop run that exits
immediately because the preamble already meets the target size 0. -/
theorem c1_amended_witness :
    (buildInit cfgW1 zeroStream).lines ≤ (buildInit cfgW1 zeroStream).lines ∧
      cfgW1.loc ≤ ((buildInit cfgW1 zeroStream).lines : Int) :=
  c1_amended cfgW1 ordId 0 (buildInit cfgW1 zeroStream) (buildInit cfgW1 zeroStream) rfl

def cfg2 : CConfig := { loc := 5, style := "kr", weights := [("typedef", 1), ("var_decl", 1)] }

def c2s : Nat → Nat := fun n =>
  [0, 0, 0, 0, 0, 0, 0, 1, 1, 1, 1, 1, 0, 4503599627370496, 5, 9007199254740991,
    2, 2, 2, 2, 2, 2, 9007199254740991, 0].getD n 0

/-- C2.  The claim asserts byte-identical output for identical configuration
and seed, reproducible across repeated runs and platforms.  The code draws
all randomness from the single seeded source, but it also indexes into
list(state["typedefs"]) and list(state["funcs"]), and the iteration order of
those sets depends on the per-process string-hash randomisation, not on the
configuration or seed.  With the same configuration cfg2 and the same draw
sequence c2s, two legitimate iteration orders (insertion order and its
reverse, both permutations) yield different bytes: the variable declaration
picks the alias "aaa" under one order and "bbbb" under the other.  This
contradicts the determinism the module docstring ("Deterministic output with
--seed") and the spec promise, so it is a defect of the code. -/
theorem c2_code_bug :
    SetOrd.ok ordId ∧ SetOrd.ok ordRev ∧
      build_c cfg2 ordId c2s 5 ≠ build_c cfg2 ordRev c2s 5 :=
  ⟨ordId_ok, ordRev_ok, by decide⟩

def cfg3 : CConfig := { loc := 20, style := "allman", weights := [("switch", 1)] }

def c3s : Nat → Nat := fun n =>
  [0, 0, 0, 0, 0, 0, 0, 2, 0, 0, 0, 0, 0, 0, 0, 2, 0].getD n 0

/-- C3, counterexample.  The claim bounds the final line count by loc + 17
for every run.  The forced entry point appended after the loop breaks the
bound: with target 20 and all weight on the switch unit (whose snippet can
reach the extremal 17 lines), this run exits the loop at 36 lines and then
appends a 5-line main, giving 41 > 20 + 17 = 37.  The fragments measure
[2, 17, 17, 5] newlines: preamble, two switches, forced main. -/
theorem c3_counterexample :
    (build_c cfg3 ordId c3s 5).map countNL = some 41 ∧
      (buildCParts cfg3 ordId c3s 5).map (fun ps => ps.map (fun p => countNL p.2))
        = some [2, 17, 17, 5] ∧
      ¬ ((41 : Int) ≤ cfg3.loc + 17) :=
  ⟨by decide, by decide, by decide⟩

/-- C3, amended.  The bound that does hold: the assembled text has at least
loc lines, and at most max(preambleLines, (loc-1) + 17) + 7 lines — each
loop iteration starts below loc and adds at most 17 lines (the switch
snippet's maximum), and the post-loop forced entry point can add up to 7
more.  The claimed loc + 17 ceiling fails only by omitting that final
main. -/
theorem c3_amended (cfg : CConfig) (o : SetOrd) (stream : Nat → Nat) (fuel : Nat)
    (t : String) (hok : SetOrd.ok o) (h : build_c cfg o stream fuel = some t) :
    cfg.loc ≤ (countNL t : Int) ∧
      countNL t ≤ max (countNL PREAMBLE) ((cfg.loc - 1).toNat + 17) + 7 := by
  unfold build_c buildCRun at h
  rcases hgo : loopGo cfg o fuel (buildInit cfg stream) with _ | ls
  · rw [hgo] at h
    exact Option.noConfusion h
  · rw [hgo] at h
    simp only [Option.map_some', Option.some.injEq] at h
    subst h
    have hexit := loopGo_exit cfg o fuel _ ls hgo
    have hbnd := loopGo_bound cfg o hok fuel _ ls (buildInit_gsok cfg stream)
      (buildInit_count cfg stream) hgo
    rw [buildInit_lines] at hbnd
    unfold buildFin
    by_cases hw : ls.st.main_written = true
    · rw [if_pos hw, hbnd.2.1]
      exact ⟨hexit.2, le_trans hbnd.2.2 (Nat.le_add_right _ 7)⟩
    · rw [if_neg hw]
      dsimp only
      have hq : countNL ("main", (gen_main o ls.st ls.rng).1).2
          = countNL (gen_main o ls.st ls.rng).1 := rfl
      rw [countNL_parts_append, hq, hbnd.2.1]
      have hm := gen_main_le o ls.st ls.rng hok hbnd.1
      have hup := hbnd.2.2
      have hlo := hexit.2
      exact ⟨by omega, by omega⟩

def cfgW3 : CConfig := { loc := 0, style := "kr", weights := [("comment", 1)] }

def W3 : String :=
  "/* Auto-generated C code */\n\nint main(void) \x7b\n    printf(\"Hello, world!\\n\");\n    return 0;\n\x7d\n"

/-- C3, witness: the amended bound applied to a concrete run (target 0, K&R
style, all-zero stream) whose full output text is W3. -/
theorem c3_amended_witness :
    cfgW3.loc ≤ (countNL W3 : Int) ∧
      countNL W3 ≤ max (countNL PREAMBLE) ((cfgW3.loc - 1).toNat + 17) + 7 :=
  c3_amended cfgW3 ordId zeroStream 1 W3 ordId_ok (by decide)

/-- C4, confirmed.  Every completed run contains the entry point exactly
once: among the labelled fragments of any successful build there is exactly
one "main" fragment.  The loop preserves the invariant that the number of
main fragments equals the main_written flag (the main unit is a no-op once
the flag is set), and the finalisation appends a forced main exactly when
the flag is still clear. -/
theorem c4_entry_point_once (cfg : CConfig) (o : SetOrd) (stream : Nat → Nat)
    (fuel : Nat) (ps : List (String × String))
    (h : buildCParts cfg o stream fuel = some ps) : mainCount ps = 1 := by
  unfold buildCParts buildCRun at h
  rcases hgo : loopGo cfg o fuel (buildInit cfg stream) with _ | ls
  · rw [hgo] at h
    exact Option.noConfusion h
  · rw [hgo] at h
    simp only [Option.map_some', Option.some.injEq] at h
    subst h
    have hmc := loopGo_mainCount cfg o fuel _ ls (buildInit_mainCount cfg stream) hgo
    unfold buildFin
    by_cases hw : ls.st.main_written = true
    · rw [if_pos hw, hmc, if_pos hw]
    · rw [if_neg hw]
      dsimp only
      rw [mainCount_append, hmc, if_neg hw, if_pos rfl]

def cfgW4 : CConfig := { loc := 0, style := "gnu", weights := [("comment", 1)] }

/-- C4, witness: the exactly-once property applied to a concrete run (target
0, GNU style) whose fragments are the preamble and the forced main. -/
theorem c4_witness :
    mainCount [("pre", PREAMBLE),
      ("main", "int main(void) \x7b\n  printf(\"Hello, world!\\n\");\n  return 0;\n\x7d\n")] = 1 :=
  c4_entry_point_once cfgW4 ordId zeroStream 1 _ (by decide)

/-- C5.  The claim (spec section 7) says weight overrides must be validated
at construction time, with unknown unit names and non-numeric or negative
values rejected before generation starts.  The parser validates syntax only:
it accepts the override string "bogus=1" — a unit name registered nowhere —
and stores it as a brand-new weight entry, and it accepts "var_decl=-0.5"
and stores the negative weight -1/2.  Both runs would then reach the
generator (where an all-bogus weighting raises inside random.choices and a
negative weight silently skews the distribution) instead of exiting with the
promised construction-time error, so the promise fails in the code. -/
theorem c5_code_bug :
    parse_weights (some "bogus=1") = some (defaultWeights ++ [("bogus", mkRat 1 1)]) ∧
      "bogus" ∉ registryKinds ∧
      (parse_weights (some "var_decl=-0.5")).map
          (fun w => w.filter (fun p => p.1 == "var_decl"))
        = some [("var_decl", mkRat (-1) 2)] ∧
      mkRat (-1) 2 < 0 :=
  ⟨by decide, by decide, by decide, by decide⟩

/-- C6, confirmed.  The include unit never duplicates a header: it always
emits an #include line for one of the five known headers, records that
header in the tracked set, and either (all five were already present) the
tracked set is reset so the run starts a fresh cycle with just the chosen
header, or the chosen header was not yet present and is appended to the
tracked set — never a duplicate of a tracked header. -/
theorem c6_header_unit (o : SetOrd) (st : GenState) (r : Rng) :
    ∃ hdr, hdr ∈ HDRS ∧
      (gen_include o st r).1 = "#include " ++ hdr ++ "\n" ∧
      hdr ∈ (gen_include o st r).2.1.headers ∧
      (((∀ h ∈ HDRS, h ∈ st.headers) ∧ (gen_include o st r).2.1.headers = [hdr]) ∨
       (hdr ∉ st.headers ∧ (gen_include o st r).2.1.headers = setAdd st.headers hdr)) := by
  by_cases hemp : (HDRS.filter (fun h => ¬ st.headers.contains h)).isEmpty = true
  · have hgen : gen_include o st r =
        ("#include " ++ (rngChoice HDRS r).1 ++ "\n",
         { st with headers := setAdd [] (rngChoice HDRS r).1 },
         (rngChoice HDRS r).2) := by
      unfold gen_include
      dsimp only
      rw [if_pos hemp]
    have hall : ∀ h ∈ HDRS, h ∈ st.headers := by
      intro h hh
      by_contra hn
      have hf : h ∈ HDRS.filter (fun h => ¬ st.headers.contains h) := by
        rw [List.mem_filter]
        refine ⟨hh, ?_⟩
        simp only [decide_eq_true_eq]
        intro hc
        exact hn (List.elem_iff.mp hc)
      rw [List.isEmpty_iff] at hemp
      rw [hemp] at hf
      exact absurd hf (List.not_mem_nil h)
    have hsa : setAdd ([] : List String) (rngChoice HDRS r).1 = [(rngChoice HDRS r).1] := by
      simp [setAdd]
    refine ⟨(rngChoice HDRS r).1, rngChoice_mem HDRS r (by decide), ?_, ?_, Or.inl ⟨hall, ?_⟩⟩
    · rw [hgen]
    · rw [hgen]
      show (rngChoice HDRS r).1 ∈ setAdd [] (rngChoice HDRS r).1
      rw [hsa]
      exact List.mem_singleton.mpr rfl
    · rw [hgen]
      exact hsa
  · obtain ⟨hdr, r2, hcr⟩ : ∃ hdr r2,
        rngChoice (HDRS.filter (fun h => ¬ st.headers.contains h)) r = (hdr, r2) :=
      ⟨_, _, rfl⟩
    have hgen : gen_include o st r =
        ("#include " ++ hdr ++ "\n", { st with headers := setAdd st.headers hdr }, r2) := by
      unfold gen_include
      dsimp only
      rw [if_neg hemp, hcr]
    have hne : HDRS.filter (fun h => ¬ st.headers.contains h) ≠ [] := by
      intro h0
      rw [h0] at hemp
      exact hemp rfl
    have hmem := rngChoice_mem _ r hne
    rw [hcr, List.mem_filter] at hmem
    have hnotin : hdr ∉ st.headers := by
      have h2 := hmem.2
      simp only [decide_eq_true_eq] at h2
      intro hin
      exact h2 (List.elem_iff.mpr hin)
    refine ⟨hdr, hmem.1, ?_, ?_, Or.inr ⟨hnotin, ?_⟩⟩
    · rw [hgen]
    · rw [hgen]
      exact mem_setAdd_self _ _
    · rw [hgen]

def c7st : GenState := ⟨"kr", [], [], [("char", "aaaaaa", "void")], [], false⟩

def c7r : Rng := ⟨fun n => [0, 0, 42].getD n 0, 0⟩

/-- C7, counterexample.  The claim says a non-void function definition's body
returns a literal appropriate for the function's declared return type.  In
the code the literal's type is a fresh independent draw from the base-type
pool, not the declared return type: from a registry holding the signature
char aaaaaa(void), this run emits a char-returning function whose body is
"return 42;", and "42" is not a char literal under the spec's own literal
contract (it is an int literal). -/
theorem c7_counterexample :
    (gen_func_def ordId c7st c7r).1 = "char aaaaaa(void) \x7b\n    return 42;\n\x7d\n\n" ∧
      ¬ specLiteralFor "char" "42" :=
  ⟨by decide, by decide⟩

/-- C7, amended.  What the function-definition unit actually guarantees: it
is a no-op on an empty registry; otherwise it picks a registered signature
and emits its header with a body that is either the placeholder comment
(void return) or a return of a literal that is well-typed for SOME base
type — a fresh draw from the base-type pool, unrelated to the declared
return type. -/
theorem c7_amended (o : SetOrd) (st : GenState) (r : Rng) (hok : SetOrd.ok o) :
    (st.funcs = [] → gen_func_def o st r = ("", st, r)) ∧
    (st.funcs ≠ [] → ∃ sig ∈ st.funcs, ∃ body rest,
      gen_func_def o st r =
        (brace_line st.style (sig.1 ++ " " ++ sig.2.1 ++ "(" ++ sig.2.2 ++ ")") ++
          body ++ "\x7d\n\n", st, rest) ∧
      ((sig.1 = "void" ∧ body = (styleGet st.style).indent ++ "// function body\n") ∨
       (sig.1 ≠ "void" ∧ ∃ bt ∈ BASE_CTYPES, ∃ lit,
         body = (styleGet st.style).indent ++ "return " ++ lit ++ ";\n" ∧
         specLiteralFor bt lit))) := by
  constructor
  · intro hemp
    unfold gen_func_def
    rw [if_pos (List.isEmpty_iff.mpr hemp)]
  · intro hne
    have hie : ¬ (st.funcs.isEmpty = true) := by
      rw [List.isEmpty_iff]
      exact hne
    have hfne : o.ordF st.funcs ≠ [] := by
      intro h0
      have hp := hok.2 st.funcs
      rw [h0] at hp
      exact hne hp.symm.eq_nil
    obtain ⟨sig, r2, hcr⟩ : ∃ sig r2, rngChoice (o.ordF st.funcs) r = (sig, r2) :=
      ⟨_, _, rfl⟩
    have hsig : sig ∈ st.funcs := by
      have hm := rngChoice_mem _ r hfne
      rw [hcr] at hm
      exact (hok.2 st.funcs).mem_iff.mp hm
    by_cases hv : sig.1 = "void"
    · refine ⟨sig, hsig, (styleGet st.style).indent ++ "// function body\n", r2, ?_,
        Or.inl ⟨hv, rfl⟩⟩
      unfold gen_func_def
      rw [if_neg hie]
      simp only [hcr]
      rw [if_pos hv]
    · obtain ⟨bt, r3, hbt⟩ : ∃ bt r3, rngChoice BASE_CTYPES r2 = (bt, r3) := ⟨_, _, rfl⟩
      have hbtm : bt ∈ BASE_CTYPES := by
        have hm := rngChoice_mem BASE_CTYPES r2 (by decide)
        rw [hbt] at hm
        exact hm
      refine ⟨sig, hsig,
        (styleGet st.style).indent ++ "return " ++ (random_value bt r3).1 ++ ";\n",
        (random_value bt r3).2, ?_,
        Or.inr ⟨hv, bt, hbtm, (random_value bt r3).1, rfl, random_value_spec bt r3 hbtm⟩⟩
      unfold gen_func_def
      rw [if_neg hie]
      simp only [hcr]
      rw [if_neg hv]
      simp only [hbt]

/-- C7, witness: the amended description applied to the concrete registry
holding the single signature char aaaaaa(void), under insertion order. -/
theorem c7_amended_witness :
    (c7st.funcs = [] → gen_func_def ordId c7st c7r = ("", c7st, c7r)) ∧
    (c7st.funcs ≠ [] → ∃ sig ∈ c7st.funcs, ∃ body rest,
      gen_func_def ordId c7st c7r =
        (brace_line c7st.style (sig.1 ++ " " ++ sig.2.1 ++ "(" ++ sig.2.2 ++ ")") ++
          body ++ "\x7d\n\n", c7st, rest) ∧
      ((sig.1 = "void" ∧ body = (styleGet c7st.style).indent ++ "// function body\n") ∨
       (sig.1 ≠ "void" ∧ ∃ bt ∈ BASE_CTYPES, ∃ lit,
         body = (styleGet c7st.style).indent ++ "return " ++ lit ++ ";\n" ∧
         specLiteralFor bt lit))) :=
  c7_amended ordId c7st c7r ordId_ok

def c8r : Rng := ⟨fun n => [4, 9007199254740991, 0, 0, 0, 0, 0, 0, 0, 3, 314].getD n 0, 0⟩

/-- C8, counterexample.  The claim says an initialised variable declaration
uses an initialiser appropriate for the declared type.  The initialiser's
literal is drawn for an independently chosen base type: this run declares a
char variable but initialises it with "3.14", a double literal, emitting
"char aaaaaa = 3.14;" — ill-typed for char under the spec's literal
contract. -/
theorem c8_counterexample :
    (gen_var_decl ordId (initState "kr") c8r).1 = "char aaaaaa = 3.14;\n" ∧
      ¬ specLiteralFor "char" "3.14" ∧ specLiteralFor "double" "3.14" := by
  refine ⟨by decide, by decide, ?_⟩
  unfold specLiteralFor
  rw [if_neg (by decide), if_neg (by decide), if_neg (by decide), if_neg (by decide)]
  exact ⟨314, List.mem_range.mpr (by omega), by decide⟩

/-- C8, amended.  What the variable-declaration unit actually guarantees:
it emits `ct nm[ = lit];`, leaves the state untouched, and when an
initialiser is present it is a literal well-typed for SOME base type — a
fresh draw from the base-type pool, unrelated to the declared type ct
(pointers are never initialised). -/
theorem c8_amended (o : SetOrd) (st : GenState) (r : Rng) :
    ∃ ct nm init rest,
      gen_var_decl o st r = (ct ++ " " ++ nm ++ init ++ ";\n", st, rest) ∧
      (pyEndsWith ct "*" = true → init = "") ∧
      (init = "" ∨ ∃ bt ∈ BASE_CTYPES, ∃ lit,
        init = " = " ++ lit ∧ specLiteralFor bt lit) := by
  obtain ⟨ct, r1, hct⟩ : ∃ ct r1, choose_ctype (o.ordS st.typedefs) r = (ct, r1) :=
    ⟨_, _, rfl⟩
  obtain ⟨nm, r2, hnm⟩ : ∃ nm r2, fresh_name r1 6 = (nm, r2) := ⟨_, _, rfl⟩
  by_cases hp : pyEndsWith ct "*" = true
  · refine ⟨ct, nm, "", r2, ?_, fun _ => rfl, Or.inl rfl⟩
    unfold gen_var_decl
    simp only [hct, hnm]
    rw [if_neg (fun hc => hc hp)]
  · obtain ⟨k, r3, hk⟩ : ∃ k r3, randReal53 r2 = (k, r3) := ⟨_, _, rfl⟩
    by_cases hh : k < HALF
    · obtain ⟨bt, r4, hbt⟩ : ∃ bt r4, rngChoice BASE_CTYPES r3 = (bt, r4) := ⟨_, _, rfl⟩
      have hbtm : bt ∈ BASE_CTYPES := by
        have hm := rngChoice_mem BASE_CTYPES r3 (by decide)
        rw [hbt] at hm
        exact hm
      refine ⟨ct, nm, " = " ++ (random_value bt r4).1, (random_value bt r4).2, ?_,
        fun hc => absurd hc hp,
        Or.inr ⟨bt, hbtm, (random_value bt r4).1, rfl, random_value_spec bt r4 hbtm⟩⟩
      unfold gen_var_decl
      simp only [hct, hnm, hk, hbt]
      rw [if_pos hp, if_pos hh]
    · refine ⟨ct, nm, "", r3, ?_, fun _ => rfl, Or.inl rfl⟩
      unfold gen_var_decl
      simp only [hct, hnm, hk]
      rw [if_pos hp, if_neg hh]

/-- C9, confirmed.  The three registries are append-only: whatever unit the
dispatcher runs, the prior typedefs, structs and funcs lists survive as
sublists of the successor state's lists (elements are only ever appended,
never removed or replaced), and the header set is left untouched by every
unit except the include unit — the only field permitted to reset, and even
there only by the documented exhaustion cycle. -/
theorem c9_append_only (kind : String) (o : SetOrd) (st : GenState) (r : Rng)
    (out : String × GenState × Rng) (h : runUnit kind o st r = some out) :
    st.typedefs.Sublist out.2.1.typedefs ∧ st.structs.Sublist out.2.1.structs ∧
      st.funcs.Sublist out.2.1.funcs ∧
      (kind ≠ "include" → out.2.1.headers = st.headers) :=
  have hs := runUnit_state kind o st r out h
  ⟨hs.1, hs.2.1, hs.2.2.1, hs.2.2.2.1⟩

/-- C9, witness: the append-only property applied to one typedef-unit step
from the initial K&R state. -/
theorem c9_witness :
    (initState "kr").typedefs.Sublist
        (gen_typedef ordId (initState "kr") ⟨zeroStream, 0⟩).2.1.typedefs ∧
      (initState "kr").structs.Sublist
        (gen_typedef ordId (initState "kr") ⟨zeroStream, 0⟩).2.1.structs ∧
      (initState "kr").funcs.Sublist
        (gen_typedef ordId (initState "kr") ⟨zeroStream, 0⟩).2.1.funcs ∧
      ("typedef" ≠ "include" →
        (gen_typedef ordId (initState "kr") ⟨zeroStream, 0⟩).2.1.headers
          = (initState "kr").headers) :=
  c9_append_only "typedef" ordId (initState "kr") ⟨zeroStream, 0⟩ _ rfl

def cfg10 : CConfig :=
  { loc := 8, style := "kr",
    weights := [("typedef", 1), ("func_decl", 1), ("func_def", 1)] }

def c10s : Nat → Nat := fun n =>
  [0, 1, 21, 14, 8, 3, 0, 4503599627370496, 5, 9007199254740991, 5, 5, 5, 5, 5, 5,
    0, 6755399441055744, 0, 0, 0, 0].getD n 0

/-- C10, counterexample.  The claim says signatures stored by the
declaration unit never carry the return type "void", making the
void-return branch of the definition unit dead code.  But the typedef unit
draws alias names as random lowercase words, and "void" is such a word:
this run registers the alias "void", the declaration unit then draws it as
a return type and stores the signature ("void","ffffff","void"), and the
definition unit takes its void branch, emitting a body-comment fragment
with no return statement. -/
theorem c10_counterexample :
    (buildCRun cfg10 ordId c10s 6).map (fun ls => ls.st.funcs)
        = some [("void", "ffffff", "void")] ∧
      (buildCParts cfg10 ordId c10s 6).map (fun ps => ps.map Prod.fst)
        = some ["pre", "typedef", "func_decl", "func_def", "main"] ∧
      (buildCParts cfg10 ordId c10s 6).map (fun ps => (ps.getD 3 ("", "")).2)
        = some "void ffffff(void) \x7b\n    // function body\n\x7d\n\n" :=
  ⟨by decide, by decide, by decide⟩

/-- C10, amended.  What does hold of the declaration unit: provided the
alias pool it draws from does not itself contain the word "void", the
stored signature's return type is never "void" — it is a base type or an
alias, optionally pointer-suffixed.  The claim fails only because the
alias pool can contain a random alias spelled "void". -/
theorem c10_amended (o : SetOrd) (st : GenState) (r : Rng)
    (hvd : "void" ∉ o.ordS st.typedefs) :
    ∃ ret nm ps rest,
      gen_func_decl o st r =
        (ret ++ " " ++ nm ++ "(" ++ ps ++ ");\n",
         { st with funcs := setAdd st.funcs (ret, nm, ps) }, rest) ∧
      ret ≠ "void" ∧
      ∃ b ∈ BASE_CTYPES ++ o.ordS st.typedefs, ret = b ∨ ret = b ++ "*" := by
  obtain ⟨ret, r1, hret⟩ : ∃ a r1, choose_ctype (o.ordS st.typedefs) r = (a, r1) :=
    ⟨_, _, rfl⟩
  obtain ⟨nm, r2, hnm⟩ : ∃ a r2, fresh_name r1 6 = (a, r2) := ⟨_, _, rfl⟩
  obtain ⟨np, r3, hnp⟩ : ∃ a r3, randint 0 2 r2 = (a, r3) := ⟨_, _, rfl⟩
  obtain ⟨pl, r4, hps⟩ : ∃ a r4, genParams np (o.ordS st.typedefs) r3 = (a, r4) :=
    ⟨_, _, rfl⟩
  refine ⟨ret, nm, (if pl.isEmpty then "void" else pyJoin ", " pl), r4, ?_, ?_, ?_⟩
  · unfold gen_func_decl
    simp only [hret, hnm, hnp, hps]
  · have hne := choose_ctype_ne_void hvd r
    rw [hret] at hne
    exact hne
  · have hb := choose_ctype_base (o.ordS st.typedefs) r
    rw [hret] at hb
    exact hb

/-- C10, witness: the amended guarantee applied to the initial K&R state
(empty alias pool) on the all-zero stream, where the stored signature gets
the pointer return type int*. -/
theorem c10_amended_witness :
    ∃ ret nm ps rest,
      gen_func_decl ordId (initState "kr") ⟨zeroStream, 0⟩ =
        (ret ++ " " ++ nm ++ "(" ++ ps ++ ");\n",
         { initState "kr" with
            funcs := setAdd (initState "kr").funcs (ret, nm, ps) }, rest) ∧
      ret ≠ "void" ∧
      ∃ b ∈ BASE_CTYPES ++ ordId.ordS (initState "kr").typedefs,
        ret = b ∨ ret = b ++ "*" :=
  c10_amended ordId (initState "kr") ⟨zeroStream, 0⟩ (by decide)
